import Mathlib

/-!
Verification development for the bazo-vm stack-based smart-contract virtual
machine.  The interpreter (`VM.Exec` and its helpers) is embedded shallowly:
bytes are `Nat` (values < 256), byte strings are `List Nat`, the `uint64` gas
counter is a `Nat` kept below `2^64` with Go's wrapping subtraction made
explicit, and Go's `big.Int` is `Int`.  Code that the repository keeps in
files not present here (the evaluation stack, the integer codec in utils.go,
the container codecs, crypto primitives) is either modelled from the spec
(doc comments say so) or abstracted behind the `Prims` parameter when no
claim depends on its internals.
-/

/-- A Go byte, as a natural number (intended range 0..255). -/
abbrev Byte := Nat

/-- A Go byte slice. -/
abbrev Bytes := List Nat

/-- Byte sequence of an ASCII string, as Go's `[]byte(s)` (all interpreter
messages are ASCII, so UTF-8 bytes coincide with the code points). -/
def strBytes (s : String) : Bytes := s.data.map Char.toNat

/-- Decidable byte-level check that `b` begins with the byte sequence `p`. -/
def startsWithB (p b : Bytes) : Prop := b.take p.length = p

/-- Digit loop of the big-endian encoder, structurally recursive on a fuel
bound so that concrete encodings compute by reduction. -/
def natToBEAux : Nat → Nat → Bytes
  | 0, _ => []
  | fuel + 1, n => if n = 0 then [] else natToBEAux fuel (n / 256) ++ [n % 256]

/-- Modelled from the spec: minimal big-endian magnitude of a natural number
(the byte form produced by `big.Int.Bytes`); zero encodes to the empty
sequence.  `n` itself bounds the number of digits. -/
def natToBE (n : Nat) : Bytes := natToBEAux n n

/-- Modelled from the spec: big-endian unsigned interpretation of a byte
sequence (the reading performed by `big.Int.SetBytes`). -/
def beToNat (bs : Bytes) : Nat := bs.foldl (fun a b => a * 256 + b) 0

theorem beToNat_append_one (xs : Bytes) (y : Nat) :
    beToNat (xs ++ [y]) = beToNat xs * 256 + y := by
  unfold beToNat
  rw [List.foldl_append]
  rfl

theorem beToNat_natToBEAux (fuel : Nat) :
    ∀ n, n ≤ fuel → beToNat (natToBEAux fuel n) = n := by
  induction fuel with
  | zero =>
    intro n h
    have hn : n = 0 := Nat.le_zero.mp h
    subst hn
    rfl
  | succ f ih =>
    intro n h
    by_cases h0 : n = 0
    · subst h0
      simp [natToBEAux, beToNat]
    · simp only [natToBEAux, if_neg h0]
      rw [beToNat_append_one, ih (n / 256) (by omega)]
      omega

theorem beToNat_natToBE (n : Nat) : beToNat (natToBE n) = n :=
  beToNat_natToBEAux n n (le_refl n)

/-- Modelled from the spec: `SignedByteArrayConversion` of utils.go (absent
from src/).  Zero is encoded as the single byte `[0]`; otherwise a sign byte
(0 for non-negative, 1 for negative) is followed by the minimal big-endian
magnitude. -/
def SignedByteArrayConversion (n : Int) : Bytes :=
  if n = 0 then [0]
  else (if n < 0 then 1 else 0) :: natToBE n.natAbs

/-- Decode error text for an empty signed-integer input (the exact wording of
the absent utils.go is unknown; the spec only says decoding fails). -/
def msgNotValidBigInt : String := "not a valid byte array"

/-- Decode error text for a sign byte other than 0 or 1, as observed by
vm_test.go (`sub: Invalid signing bit`). -/
def msgInvalidSigningBit : String := "Invalid signing bit"

/-- Error text of `BigIntToUInt`, pinned by utils_test.go. -/
def msgGreater32 : String := "value cannot be greater than 32bits"

/-- Error text of `BigIntToUInt16`, pinned by utils_test.go. -/
def msgGreater16 : String := "value cannot be greater than 65535"

/-- Modelled from the spec: `SignedBigIntConversion` of utils.go (absent from
src/).  Decoding fails on an empty input; the first byte is the sign tag
(0 non-negative, 1 negative, anything else is `Invalid signing bit`, the
message observed by vm_test.go); the remaining bytes are the big-endian
magnitude. -/
def SignedBigIntConversion (bs : Bytes) : Except String Int :=
  match bs with
  | [] => .error msgNotValidBigInt
  | sign :: mag =>
    if sign = 1 then .ok (-(beToNat mag : Int))
    else if sign = 0 then .ok ((beToNat mag : Int))
    else .error msgInvalidSigningBit

/-- Modelled from the spec: `UnsignedBigIntConversion` of utils.go (absent
from src/): the whole input is a big-endian unsigned magnitude. -/
def UnsignedBigIntConversion (bs : Bytes) : Except String Int :=
  .ok ((beToNat bs : Int))

/-- Modelled from the spec and utils_test.go: `BigIntToUInt` fails with
`value cannot be greater than 32bits` when the absolute value exceeds
`0xFFFFFFFF`; negative values yield the absolute value. -/
def BigIntToUInt (n : Int) : Except String Nat :=
  if n.natAbs > 4294967295 then .error msgGreater32
  else .ok n.natAbs

/-- Modelled from the spec and utils_test.go: `BigIntToUInt16` fails with
`value cannot be greater than 65535` when the absolute value exceeds
`0xFFFF`; negative values yield the absolute value. -/
def BigIntToUInt16 (n : Int) : Except String Nat :=
  if n.natAbs > 65535 then .error msgGreater16
  else .ok n.natAbs

/-- Modelled from the spec and utils_test.go: `ByteArrayToInt` reads a
big-endian unsigned integer (utils_test.go: `[0xA8, 0x93]` gives `43155`). -/
def ByteArrayToInt (bs : Bytes) : Nat := beToNat bs

/-- Modelled from the spec: a popped boolean is a byte value interpreted as
non-zero means true (`ByteArrayToBool` of utils.go, absent from src/). -/
def ByteArrayToBool (bs : Bytes) : Bool := bs.headD 0 != 0

/-- Modelled from the spec: `BoolToByteArray` encodes true as `[1]` and
false as `[0]` (vm_test.go asserts these bytes). -/
def BoolToByteArray (b : Bool) : Bytes := if b then [1] else [0]

/-- Modelled from the spec: `UInt64ToByteArray` is the 8-byte little-endian
form of an unsigned 64-bit value (`binary.LittleEndian.PutUint64`). -/
def UInt64ToByteArray (n : Nat) : Bytes :=
  (List.range 8).map (fun i => n / 256 ^ i % 256)

/-- Go's `bytes.Compare`: lexicographic byte comparison returning -1, 0, 1. -/
def compareBytes : Bytes → Bytes → Int
  | [], [] => 0
  | [], _ :: _ => -1
  | _ :: _, [] => 1
  | a :: as, b :: bs =>
    if a < b then -1 else if b < a then 1 else compareBytes as bs

/-- Argument-type constants of op_codes.go (`BYTES = iota + 1`, ...). -/
def BYTES : Nat := 1

/-- Argument-type constant `BYTE` of op_codes.go. -/
def BYTE : Nat := 2

/-- Argument-type constant `LABEL` of op_codes.go. -/
def LABEL : Nat := 3

/-- Argument-type constant `ADDR` of op_codes.go. -/
def ADDR : Nat := 4

/-- OpCode record of op_codes.go: numeric code, name, argument count and
shapes, base gas price and per-word gas factor. -/
structure OpCode where
  code : Nat
  Name : String
  Nargs : Nat
  ArgTypes : List Nat
  gasPrice : Nat
  gasFactor : Nat
deriving Repr

/-- Fallback entry used by the table lookup (never reached for codes below
the table length; Go indexing is guarded by the length check in Exec). -/
def defaultOpCode : OpCode :=
  { code := 0, Name := "", Nargs := 0, ArgTypes := [], gasPrice := 0, gasFactor := 0 }

/-- The OpCodes table of op_codes.go, entry by entry. -/
def OpCodes : List OpCode :=
  [ { code := 0, Name := "pushint", Nargs := 1, ArgTypes := [BYTES], gasPrice := 1, gasFactor := 1 },
    { code := 1, Name := "pushbool", Nargs := 1, ArgTypes := [BYTE], gasPrice := 1, gasFactor := 1 },
    { code := 2, Name := "pushchar", Nargs := 1, ArgTypes := [BYTE], gasPrice := 1, gasFactor := 1 },
    { code := 3, Name := "pushstr", Nargs := 1, ArgTypes := [BYTES], gasPrice := 1, gasFactor := 1 },
    { code := 4, Name := "push", Nargs := 1, ArgTypes := [BYTES], gasPrice := 1, gasFactor := 1 },
    { code := 5, Name := "dup", Nargs := 0, ArgTypes := [], gasPrice := 1, gasFactor := 2 },
    { code := 6, Name := "roll", Nargs := 1, ArgTypes := [BYTE], gasPrice := 1, gasFactor := 2 },
    { code := 7, Name := "swap", Nargs := 0, ArgTypes := [], gasPrice := 1, gasFactor := 2 },
    { code := 8, Name := "pop", Nargs := 0, ArgTypes := [], gasPrice := 1, gasFactor := 1 },
    { code := 9, Name := "add", Nargs := 0, ArgTypes := [], gasPrice := 1, gasFactor := 2 },
    { code := 10, Name := "sub", Nargs := 0, ArgTypes := [], gasPrice := 1, gasFactor := 2 },
    { code := 11, Name := "mult", Nargs := 0, ArgTypes := [], gasPrice := 1, gasFactor := 2 },
    { code := 12, Name := "div", Nargs := 0, ArgTypes := [], gasPrice := 1, gasFactor := 2 },
    { code := 13, Name := "mod", Nargs := 0, ArgTypes := [], gasPrice := 1, gasFactor := 2 },
    { code := 14, Name := "exp", Nargs := 0, ArgTypes := [], gasPrice := 1, gasFactor := 2 },
    { code := 15, Name := "neg", Nargs := 0, ArgTypes := [], gasPrice := 1, gasFactor := 2 },
    { code := 16, Name := "eq", Nargs := 0, ArgTypes := [], gasPrice := 1, gasFactor := 2 },
    { code := 17, Name := "neq", Nargs := 0, ArgTypes := [], gasPrice := 1, gasFactor := 2 },
    { code := 18, Name := "lt", Nargs := 0, ArgTypes := [], gasPrice := 1, gasFactor := 2 },
    { code := 19, Name := "gt", Nargs := 0, ArgTypes := [], gasPrice := 1, gasFactor := 2 },
    { code := 20, Name := "lte", Nargs := 0, ArgTypes := [], gasPrice := 1, gasFactor := 2 },
    { code := 21, Name := "gte", Nargs := 0, ArgTypes := [], gasPrice := 1, gasFactor := 2 },
    { code := 22, Name := "shiftl", Nargs := 0, ArgTypes := [], gasPrice := 1, gasFactor := 2 },
    { code := 23, Name := "shiftr", Nargs := 0, ArgTypes := [], gasPrice := 1, gasFactor := 2 },
    { code := 24, Name := "bitwiseand", Nargs := 0, ArgTypes := [], gasPrice := 1, gasFactor := 2 },
    { code := 25, Name := "bitwiseor", Nargs := 0, ArgTypes := [], gasPrice := 1, gasFactor := 2 },
    { code := 26, Name := "bitwisexor", Nargs := 0, ArgTypes := [], gasPrice := 1, gasFactor := 2 },
    { code := 27, Name := "bitwisenot", Nargs := 0, ArgTypes := [], gasPrice := 1, gasFactor := 2 },
    { code := 28, Name := "nop", Nargs := 0, ArgTypes := [], gasPrice := 1, gasFactor := 1 },
    { code := 29, Name := "jmp", Nargs := 1, ArgTypes := [LABEL], gasPrice := 1, gasFactor := 1 },
    { code := 30, Name := "jmptrue", Nargs := 1, ArgTypes := [LABEL], gasPrice := 1, gasFactor := 1 },
    { code := 31, Name := "jmpfalse", Nargs := 1, ArgTypes := [LABEL], gasPrice := 1, gasFactor := 1 },
    { code := 32, Name := "call", Nargs := 2, ArgTypes := [LABEL, BYTE], gasPrice := 1, gasFactor := 1 },
    { code := 33, Name := "callif", Nargs := 2, ArgTypes := [LABEL, BYTE], gasPrice := 1, gasFactor := 1 },
    { code := 34, Name := "callext", Nargs := 3, ArgTypes := [ADDR, BYTE, BYTE, BYTE, BYTE, BYTE], gasPrice := 1000, gasFactor := 2 },
    { code := 35, Name := "ret", Nargs := 0, ArgTypes := [], gasPrice := 1, gasFactor := 1 },
    { code := 36, Name := "size", Nargs := 0, ArgTypes := [], gasPrice := 1, gasFactor := 1 },
    { code := 37, Name := "storeloc", Nargs := 1, ArgTypes := [BYTE], gasPrice := 1, gasFactor := 2 },
    { code := 38, Name := "storest", Nargs := 1, ArgTypes := [BYTE], gasPrice := 1000, gasFactor := 2 },
    { code := 39, Name := "loadloc", Nargs := 1, ArgTypes := [BYTE], gasPrice := 1, gasFactor := 2 },
    { code := 40, Name := "loadst", Nargs := 1, ArgTypes := [BYTE], gasPrice := 10, gasFactor := 2 },
    { code := 41, Name := "address", Nargs := 0, ArgTypes := [], gasPrice := 1, gasFactor := 1 },
    { code := 42, Name := "issuer", Nargs := 0, ArgTypes := [], gasPrice := 1, gasFactor := 1 },
    { code := 43, Name := "balance", Nargs := 0, ArgTypes := [], gasPrice := 1, gasFactor := 1 },
    { code := 44, Name := "caller", Nargs := 0, ArgTypes := [], gasPrice := 1, gasFactor := 1 },
    { code := 45, Name := "callval", Nargs := 0, ArgTypes := [], gasPrice := 1, gasFactor := 1 },
    { code := 46, Name := "calldata", Nargs := 0, ArgTypes := [], gasPrice := 1, gasFactor := 1 },
    { code := 47, Name := "newmap", Nargs := 0, ArgTypes := [], gasPrice := 1, gasFactor := 2 },
    { code := 48, Name := "maphaskey", Nargs := 0, ArgTypes := [], gasPrice := 1, gasFactor := 2 },
    { code := 49, Name := "mapgetval", Nargs := 0, ArgTypes := [], gasPrice := 1, gasFactor := 2 },
    { code := 50, Name := "mapsetval", Nargs := 0, ArgTypes := [], gasPrice := 1, gasFactor := 2 },
    { code := 51, Name := "mapremove", Nargs := 0, ArgTypes := [], gasPrice := 1, gasFactor := 2 },
    { code := 52, Name := "newarr", Nargs := 0, ArgTypes := [], gasPrice := 1, gasFactor := 2 },
    { code := 53, Name := "arrappend", Nargs := 0, ArgTypes := [], gasPrice := 1, gasFactor := 2 },
    { code := 54, Name := "arrinsert", Nargs := 0, ArgTypes := [], gasPrice := 1, gasFactor := 2 },
    { code := 55, Name := "arrremove", Nargs := 0, ArgTypes := [], gasPrice := 1, gasFactor := 2 },
    { code := 56, Name := "arrat", Nargs := 0, ArgTypes := [], gasPrice := 1, gasFactor := 2 },
    { code := 57, Name := "arrlen", Nargs := 0, ArgTypes := [], gasPrice := 1, gasFactor := 2 },
    { code := 58, Name := "newstr", Nargs := 1, ArgTypes := [BYTE], gasPrice := 1, gasFactor := 2 },
    { code := 59, Name := "storefld", Nargs := 1, ArgTypes := [BYTE], gasPrice := 1, gasFactor := 2 },
    { code := 60, Name := "loadfld", Nargs := 1, ArgTypes := [BYTE], gasPrice := 1, gasFactor := 2 },
    { code := 61, Name := "sha3", Nargs := 0, ArgTypes := [], gasPrice := 1, gasFactor := 2 },
    { code := 62, Name := "checksig", Nargs := 0, ArgTypes := [], gasPrice := 1, gasFactor := 2 },
    { code := 63, Name := "errhalt", Nargs := 0, ArgTypes := [], gasPrice := 0, gasFactor := 1 },
    { code := 64, Name := "halt", Nargs := 0, ArgTypes := [], gasPrice := 0, gasFactor := 1 } ]

/-- Activation frame (struct `Frame`), with the fields used by the current
interpreter: return address, locals map, evaluation-stack offset recorded at
call time and declared return-value count.  The Go `map[int][]byte` field
named `variables` (a Lean keyword, here `vars`) is a total function
defaulting to the empty slice: a missing key reads as nil. -/
structure Frame where
  returnAddress : Nat
  vars : Nat → Bytes
  evalStackOffset : Nat
  nrOfReturnTypes : Nat

/-- Host context interface (`Context` of vm.go), as pure data and functions.
`SetContractVariable` is modelled by its error behaviour only; the staged
host write is outside the machine state. -/
structure Context where
  GetContract : Bytes
  GetContractVariable : Nat → Except String Bytes
  SetContractVariable : Nat → Bytes → Except String Unit
  GetAddress : Bytes
  GetIssuer : Bytes
  GetBalance : Nat
  GetSender : Bytes
  GetAmount : Nat
  GetTransactionData : Bytes
  GetFee : Nat
  GetSig1 : Bytes

/-- Container and crypto helpers whose implementations are not under src/
(array.go, map.go, sha3, ecdsa; the spec treats crypto as black boxes).
They never read or write machine state, so the interpreter is parametrised
over them; every theorem below holds for all instantiations. -/
structure Prims where
  CreateMap : Bytes
  MapFromByteArray : Bytes → Except String Bytes
  MapContainsKey : Bytes → Bytes → Except String Bool
  MapGetVal : Bytes → Bytes → Except String Bytes
  MapSetVal : Bytes → Bytes → Bytes → Except String Bytes
  MapAppend : Bytes → Bytes → Bytes → Except String Bytes
  MapRemoveKey : Bytes → Bytes → Except String Bytes
  NewArray : Bytes
  ArrayFromByteArray : Bytes → Except String Bytes
  ArrAppendElem : Bytes → Bytes → Except String Bytes
  ArrInsertAt : Bytes → Nat → Bytes → Except String Bytes
  ArrRemoveAt : Bytes → Nat → Except String Bytes
  ArrAtIndex : Bytes → Nat → Except String Bytes
  ArrGetSize : Bytes → Except String Nat
  newStructOf : Nat → Bytes
  structFromByteArray : Bytes → Except String Bytes
  storeFieldAt : Bytes → Nat → Bytes → Except String Bytes
  loadFieldAt : Bytes → Nat → Except String Bytes
  ByteArrayToUI16 : Bytes → Except String Nat
  sha3 : Bytes → Bytes
  ecdsaVerify : Bytes → Bytes → Bytes → Bool

/-- The mutable interpreter state of struct `VM` (code, pc, fee, evaluation
stack, call stack), together with the evaluation stack's memory accounting
(spec section 4.C; stack.go is absent from src/).  The evaluation stack is a
list with its head at the top.  `pushErr` is a ghost flag recording that some
push onto the evaluation stack failed during the current instruction (the Go
code discards those errors on several paths). -/
structure MachineState where
  code : Bytes
  pc : Nat
  fee : Nat
  evalStack : List Bytes
  memoryUsage : Nat
  memoryMax : Nat
  callStack : List Frame
  pushErr : Bool

/-- Modelled from the spec: evaluation-stack push fails when the new memory
total would exceed the bound (spec section 4.C). -/
def msgStackOverflow : String := "stack overflow: memory exceeded"

/-- Modelled from the spec: error of `Pop` on an empty evaluation stack, as
observed by vm_test.go (`arrat: pop() on empty stack`). -/
def msgPopEmpty : String := "pop() on empty stack"

/-- Modelled from the spec: error of `PopIndexAt` outside the stack. -/
def msgIndexOutOfBounds : String := "index out of bounds"

/-- Error of `Peek` on an empty call stack (callstack.go). -/
def msgPeekEmptyCallStack : String := "peek() on empty callStack"

/-- Modelled from the spec: `Stack.Push` (stack.go absent from src/): fails
with a memory-bound error when `memory_usage` plus the element length would
exceed `memory_max`, otherwise prepends the element and charges its length. -/
def stackPush (s : MachineState) (b : Bytes) : Except String MachineState :=
  if s.memoryUsage + b.length > s.memoryMax then .error msgStackOverflow
  else .ok { s with evalStack := b :: s.evalStack, memoryUsage := s.memoryUsage + b.length }

/-- Push with the error surfaced; a failed push also raises the ghost flag
`pushErr` because the interpreter frequently discards this error. -/
def doPush (s : MachineState) (b : Bytes) : Option String × MachineState :=
  match stackPush s b with
  | .ok s1 => (none, s1)
  | .error e => (some e, { s with pushErr := true })

/-- Push whose error the Go code discards entirely (`_ = ...Push(...)`). -/
def pushIgn (s : MachineState) (b : Bytes) : MachineState := (doPush s b).2

/-- Modelled from the spec: `Stack.Pop` removes and returns the top element,
refunding its length from the memory accounting; fails on an empty stack. -/
def stackPop (s : MachineState) : Except String (Bytes × MachineState) :=
  match s.evalStack with
  | [] => .error msgPopEmpty
  | b :: rest =>
    .ok (b, { s with evalStack := rest, memoryUsage := s.memoryUsage - b.length })

/-- Modelled from the spec: `Stack.PopIndexAt i` removes the element at
position `i` counted from the bottom of the stack. -/
def stackPopIndexAt (s : MachineState) (i : Int) : Except String (Bytes × MachineState) :=
  if h : 0 ≤ i ∧ i.toNat < s.evalStack.length then
    let j := s.evalStack.length - 1 - i.toNat
    let b := s.evalStack.getD j []
    .ok (b, { s with evalStack := s.evalStack.eraseIdx j, memoryUsage := s.memoryUsage - b.length })
  else .error msgIndexOutOfBounds

/-- Modulus of Go's `uint64` arithmetic. -/
def U64MOD : Nat := 2 ^ 64

/-- Go's wrapping `uint64` subtraction `a - b` (operands below `2^64`). -/
def u64sub (a b : Nat) : Nat := (a + (U64MOD - b % U64MOD)) % U64MOD

/-- Go's test `int64(x) < 0` on a `uint64` value: the top bit is set. -/
def int64IsNeg (x : Nat) : Bool := decide (2 ^ 63 ≤ x % U64MOD)

/-- Go's conversion of a non-negative `big.Int` through `Int64` and then
`uint64`: the low 64 bits of the magnitude. -/
def goUint64OfNonneg (n : Int) : Nat := n.toNat % U64MOD

/-- Result of executing one instruction: continue the loop, normal halt
(`Halt`, Exec returns true), trap (Exec returns false), or a Go runtime
panic (the interpreter crashes; only `Neg` on an empty byte slice). -/
inductive StepResult where
  | cont (s : MachineState)
  | halt (s : MachineState)
  | trap (s : MachineState)
  | crashed (s : MachineState)

/-- The machine state carried by any step result. -/
def StepResult.st : StepResult → MachineState
  | .cont s => s
  | .halt s => s
  | .trap s => s
  | .crashed s => s

/-- Error text of `fetch` and `fetchMany`. -/
def msgInstrOOB : String := "Instruction set out of bounds"

/-- Location prefix of top-level interpreter errors. -/
def vmExecLoc : String := "vm.exec()"

/-- Top-level error for a byte that is not an opcode. -/
def msgNotValidOpCode : String := "Not a valid opCode"

/-- Top-level error when the base gas price exceeds the remaining fee. -/
def msgBaseOutOfGas : String := "out of gas"

/-- Error pushed when the contract is longer than 100000 bytes. -/
def msgInstrTooBig : String := "Instruction set to big"

/-- Error of the metered pops when the per-word charge exceeds the fee. -/
def msgOutOfGas : String := "Out of gas"

/-- Divide and modulo error text. -/
def msgDivZero : String := "Division by Zero"

/-- Exp error text for a negative exponent. -/
def msgNegExp : String := "Negative exponents are not allowed."

/-- Ret error text when the returned-element count does not match. -/
def msgRetMismatch : String := "Number of returned elements does not match."

/-- Call error text for a label of 0 or beyond the code. -/
def msgRetAddrOOB : String := "ReturnAddress out of bounds"

/-- Call error text guarding a negative return-type count (dead code for a
byte immediate). -/
def msgNretNegative : String := "Number of return types cannot be negative"

/-- Capitalised index error used by CallData, ArrInsert and friends. -/
def msgIndexOOBCap : String := "Index out of bounds"

/-- CheckSig error for a public key that is not 64 bytes. -/
def msgNotValidAddress : String := "Not a valid address"

/-- CheckSig error for a hash that is not 32 bytes. -/
def msgNotValidHash : String := "Not a valid hash"

/-- ArrAppend error text (pushed regardless of the underlying error). -/
def msgArrAppendSize : String := "Invalid argument size of ARRAPPEND"

/-- Leading text of the PushBool diagnostic `invalid bool value <v>`. -/
def msgInvalidBoolValue : String := "invalid bool value "

/-- Leading text of the PushChar and PushStr diagnostic
`invalid ASCII code <v>`. -/
def msgInvalidASCII : String := "invalid ASCII code "

/-- Leading text of the Neg diagnostic `unable to negate <b>`. -/
def msgUnableToNegate : String := "unable to negate "

/-- Byte form of the wrapped diagnostic `<location>: <message>`. -/
def wrapMsg (loc msg : String) : Bytes := strBytes (loc ++ ": " ++ msg)

/-- The pervasive failure pattern: push `<location>: <message>` (ignoring a
push failure, as the Go code does) and return false. -/
def trapWith (loc msg : String) (s : MachineState) : StepResult :=
  .trap (pushIgn s (wrapMsg loc msg))

/-- The pattern `err = Push(v); if err != nil { Push(name: err); return
false }` shared by most result pushes. -/
def pushResult (op : OpCode) (b : Bytes) (s : MachineState) : StepResult :=
  match doPush s b with
  | (none, s1) => .cont s1
  | (some e, s1) => trapWith op.Name e s1

/-- The pattern `err = Push(v); if err != nil { return false }` of NewStr,
StoreFld and LoadFld: a failed result push returns false with no message. -/
def pushOrSilentTrap (s : MachineState) (b : Bytes) : StepResult :=
  match doPush s b with
  | (none, s1) => .cont s1
  | (some _, s1) => .trap s1

/-- The pattern `vm.evaluationStack.Push(v)` with the error discarded
(MapHasKey and CheckSig). -/
def pushIgnCont (s : MachineState) (b : Bytes) : StepResult :=
  .cont (pushIgn s b)

/-- `VM.fetch`: read one byte at pc and advance (the Go errorLocation
argument is unused by the function and omitted). -/
def fetch (s : MachineState) : Except String Byte × MachineState :=
  if s.code.length > s.pc then
    (.ok (s.code.getD s.pc 0), { s with pc := s.pc + 1 })
  else (.error msgInstrOOB, s)

/-- `VM.fetchMany`: read `argument` bytes at pc when `len(code) - pc >
argument` holds strictly, advancing pc; the truncated Nat subtraction agrees
with Go's int subtraction because a negative difference also fails the
strict comparison against a non-negative argument. -/
def fetchMany (s : MachineState) (argument : Nat) : Except String Bytes × MachineState :=
  if s.code.length - s.pc > argument then
    (.ok ((s.code.drop s.pc).take argument), { s with pc := s.pc + argument })
  else (.error msgInstrOOB, s)

/-- `VM.PopBytes`: pop the top element, then charge `gasFactor * ceil(len /
64)` gas with Go's wrapping subtraction and sign test; on `Out of gas` the
element stays popped. -/
def PopBytes (op : OpCode) (s : MachineState) : Except String Bytes × MachineState :=
  match stackPop s with
  | .error e => (.error e, s)
  | .ok (bytes, s1) =>
    let elementSize := (bytes.length + 64 - 1) / 64
    let gasCost := op.gasFactor * elementSize % U64MOD
    if int64IsNeg (u64sub s1.fee gasCost) then (.error msgOutOfGas, s1)
    else (.ok bytes, { s1 with fee := u64sub s1.fee gasCost })

/-- `VM.PopSignedBigInt`: metered pop followed by the signed decode. -/
def PopSignedBigInt (op : OpCode) (s : MachineState) : Except String Int × MachineState :=
  match PopBytes op s with
  | (.error e, s1) => (.error e, s1)
  | (.ok bytes, s1) =>
    match SignedBigIntConversion bytes with
    | .error e => (.error e, s1)
    | .ok v => (.ok v, s1)

/-- `VM.PopUnsignedBigInt`: metered pop followed by the unsigned decode. -/
def PopUnsignedBigInt (op : OpCode) (s : MachineState) : Except String Int × MachineState :=
  match PopBytes op s with
  | (.error e, s1) => (.error e, s1)
  | (.ok bytes, s1) =>
    match UnsignedBigIntConversion bytes with
    | .error e => (.error e, s1)
    | .ok v => (.ok v, s1)

/-- Exec case `PushInt` (a zero immediate pushes `[0]`; otherwise `n+1`
bytes, sign plus magnitude, are fetched and pushed). -/
def casePushInt (op : OpCode) (s : MachineState) : StepResult :=
  match fetch s with
  | (.error e, s1) => trapWith op.Name e s1
  | (.ok totalBytes, s1) =>
    if totalBytes = 0 then pushResult op [0] s1
    else
      match fetchMany s1 (totalBytes + 1) with
      | (.error e, s2) => trapWith op.Name e s2
      | (.ok bytes, s2) => pushResult op bytes s2

/-- Exec case `PushBool`: the immediate must be 0 or 1. -/
def casePushBool (op : OpCode) (s : MachineState) : StepResult :=
  match fetch s with
  | (.error e, s1) => trapWith op.Name e s1
  | (.ok boolValue, s1) =>
    if boolValue > 1 then trapWith op.Name (msgInvalidBoolValue ++ Nat.repr boolValue) s1
    else pushResult op [boolValue] s1

/-- Exec case `PushChar`: the immediate must be ASCII (at most 127). -/
def casePushChar (op : OpCode) (s : MachineState) : StepResult :=
  match fetch s with
  | (.error e, s1) => trapWith op.Name e s1
  | (.ok charCode, s1) =>
    if charCode > 127 then trapWith op.Name (msgInvalidASCII ++ Nat.repr charCode) s1
    else pushResult op [charCode] s1

/-- Exec case `PushStr`: a length byte then that many ASCII bytes; the first
byte above 127 aborts. -/
def casePushStr (op : OpCode) (s : MachineState) : StepResult :=
  let (lenRes, s1) := fetch s
  match lenRes with
  | .error e => trapWith op.Name e s1
  | .ok length =>
    match fetchMany s1 length with
    | (.error e, s2) => trapWith op.Name e s2
    | (.ok bytes, s2) =>
      match bytes.find? (fun c => decide (c > 127)) with
      | some c => trapWith op.Name (msgInvalidASCII ++ Nat.repr c) s2
      | none => pushResult op bytes s2

/-- Exec case `Push`: a length byte then that many raw bytes. -/
def casePush (op : OpCode) (s : MachineState) : StepResult :=
  let (lenRes, s1) := fetch s
  match lenRes with
  | .error e => trapWith op.Name e s1
  | .ok length =>
    match fetchMany s1 length with
    | (.error e, s2) => trapWith op.Name e s2
    | (.ok bytes, s2) => pushResult op bytes s2

/-- Exec case `Dup`: metered pop, then two pushes of the value. -/
def caseDup (op : OpCode) (s : MachineState) : StepResult :=
  match PopBytes op s with
  | (.error e, s1) => trapWith op.Name e s1
  | (.ok tos, s1) =>
    match doPush s1 tos with
    | (some e, s2) => trapWith op.Name e s2
    | (none, s2) =>
      match doPush s2 tos with
      | (some e, s3) => trapWith op.Name e s3
      | (none, s3) => .cont s3

/-- Exec case `Roll`: move the element `arg + 2` positions below the top to
the top; a no-op when that position is exactly one below the bottom. -/
def caseRoll (op : OpCode) (s : MachineState) : StepResult :=
  match fetch s with
  | (.error e, s1) => trapWith op.Name e s1
  | (.ok arg, s1) =>
    let index : Int := (s1.evalStack.length : Int) - ((arg : Int) + 2)
    if index = -1 then .cont s1
    else if (arg : Int) ≥ (s1.evalStack.length : Int) then
      trapWith op.Name msgIndexOutOfBounds s1
    else
      match stackPopIndexAt s1 index with
      | .error e => trapWith op.Name e s1
      | .ok (newTos, s2) =>
        match doPush s2 newTos with
        | (some e, s3) => trapWith op.Name e s3
        | (none, s3) => .cont s3

/-- Exec case `Swap`: two unmetered pops, then both values are pushed back
in exchanged order; push errors are checked only after both pushes. -/
def caseSwap (op : OpCode) (s : MachineState) : StepResult :=
  match stackPop s with
  | .error e1 => trapWith op.Name e1 s
  | .ok (last, s1) =>
    match stackPop s1 with
    | .error e2 => trapWith op.Name e2 s1
    | .ok (secondLast, s2) =>
      let (e1, t1) := doPush s2 last
      let (e2, t2) := doPush t1 secondLast
      match e1 with
      | some e => trapWith op.Name e t2
      | none =>
        match e2 with
        | some e => trapWith op.Name e t2
        | none => .cont t2

/-- Exec case `Pop`: discard the top element through the metered pop. -/
def casePop (op : OpCode) (s : MachineState) : StepResult :=
  match PopBytes op s with
  | (.error e, s1) => trapWith op.Name e s1
  | (.ok _, s1) => .cont s1

/-- `VM.evaluateBigIntOperation`: pop right then left as signed big
integers, combine, push the signed encoding of the result. -/
def evaluateBigIntOperation (op : OpCode) (exec : Int → Int → Int) (s : MachineState) :
    StepResult :=
  let (r, s1) := PopSignedBigInt op s
  let (l, s2) := PopSignedBigInt op s1
  match r, l with
  | .error e, _ => trapWith op.Name e s2
  | _, .error e => trapWith op.Name e s2
  | .ok rv, .ok lv => pushResult op (SignedByteArrayConversion (exec lv rv)) s2

/-- Exec case `Exp`: pop base then exponent; reject negative exponents;
check (without deducting) the extra budget `gasPrice*exponent - gasPrice`
with Go's wrapping uint64 arithmetic; push `base ^ exponent`. -/
def caseExp (op : OpCode) (s : MachineState) : StepResult :=
  let (l, s1) := PopSignedBigInt op s
  let (r, s2) := PopSignedBigInt op s1
  match l, r with
  | .error e, _ => trapWith op.Name e s2
  | _, .error e => trapWith op.Name e s2
  | .ok lv, .ok rv =>
    if rv < 0 then trapWith op.Name msgNegExp s2
    else
      let gasCost := u64sub (op.gasPrice * goUint64OfNonneg rv % U64MOD) op.gasPrice
      if int64IsNeg (u64sub s2.fee gasCost) then trapWith op.Name msgOutOfGas s2
      else pushResult op (SignedByteArrayConversion (lv ^ rv.toNat)) s2

/-- Exec case `Div`: pop right then left; a zero divisor traps; Go's
`big.Int.Div` is Euclidean division, which is `Int.ediv`. -/
def caseDiv (op : OpCode) (s : MachineState) : StepResult :=
  let (r, s1) := PopSignedBigInt op s
  let (l, s2) := PopSignedBigInt op s1
  match r, l with
  | .error e, _ => trapWith op.Name e s2
  | _, .error e => trapWith op.Name e s2
  | .ok rv, .ok lv =>
    if rv = 0 then trapWith op.Name msgDivZero s2
    else pushResult op (SignedByteArrayConversion (Int.ediv lv rv)) s2

/-- Exec case `Mod`: pop right then left; a zero modulus traps; Go's
`big.Int.Mod` is the Euclidean modulus, which is `Int.emod`. -/
def caseMod (op : OpCode) (s : MachineState) : StepResult :=
  let (r, s1) := PopSignedBigInt op s
  let (l, s2) := PopSignedBigInt op s1
  match r, l with
  | .error e, _ => trapWith op.Name e s2
  | _, .error e => trapWith op.Name e s2
  | .ok rv, .ok lv =>
    if rv = 0 then trapWith op.Name msgDivZero s2
    else pushResult op (SignedByteArrayConversion (Int.emod lv rv)) s2

/-- Exec case `Neg`: boolean negation of the top value's first byte; a first
byte other than 0 or 1 traps; an empty popped slice makes the Go code panic
on `tos[0]`. -/
def caseNeg (op : OpCode) (s : MachineState) : StepResult :=
  match PopBytes op s with
  | (.error e, s1) => trapWith op.Name e s1
  | (.ok tos, s1) =>
    match tos with
    | [] => .crashed s1
    | b :: rest =>
      if b = 1 then pushResult op (0 :: rest) s1
      else if b = 0 then pushResult op (1 :: rest) s1
      else trapWith op.Name (msgUnableToNegate ++ Nat.repr b) s1

/-- Exec case `Eq`: raw byte comparison of two popped values. -/
def caseEq (op : OpCode) (s : MachineState) : StepResult :=
  let (r, s1) := PopBytes op s
  let (l, s2) := PopBytes op s1
  match r, l with
  | .error e, _ => trapWith op.Name e s2
  | _, .error e => trapWith op.Name e s2
  | .ok right, .ok left =>
    pushResult op (BoolToByteArray (compareBytes left right == 0)) s2

/-- Exec case `NotEq`: negated raw byte comparison. -/
def caseNotEq (op : OpCode) (s : MachineState) : StepResult :=
  let (r, s1) := PopBytes op s
  let (l, s2) := PopBytes op s1
  match r, l with
  | .error e, _ => trapWith op.Name e s2
  | _, .error e => trapWith op.Name e s2
  | .ok right, .ok left =>
    pushResult op (BoolToByteArray (compareBytes left right != 0)) s2

/-- `VM.evaluateRelationalComp`: single bytes compare as chars, otherwise
both operands decode as signed big integers; pushes whether the comparison
result is among the expected values. -/
def evaluateRelationalComp (op : OpCode) (expectedResult : List Int) (s : MachineState) :
    StepResult :=
  let (r, s1) := PopBytes op s
  let (l, s2) := PopBytes op s1
  match r, l with
  | .error e, _ => trapWith op.Name e s2
  | _, .error e => trapWith op.Name e s2
  | .ok right, .ok left =>
    if left.length = 1 ∧ right.length = 1 then
      pushResult op (BoolToByteArray (expectedResult.contains (compareBytes left right))) s2
    else
      match SignedBigIntConversion right, SignedBigIntConversion left with
      | .error e, _ => trapWith op.Name e s2
      | _, .error e => trapWith op.Name e s2
      | .ok rightInt, .ok leftInt =>
        pushResult op (BoolToByteArray (expectedResult.contains (compareIntCmp leftInt rightInt))) s2
where
  /-- `big.Int.Cmp`: -1, 0 or 1. -/
  compareIntCmp (a b : Int) : Int := if a < b then -1 else if b < a then 1 else 0

/-- Exec case `ShiftL`: pop the shift count then the value; the count must
fit in 32 bits (absolute value); left shift. -/
def caseShiftL (op : OpCode) (s : MachineState) : StepResult :=
  let (sh, s1) := PopSignedBigInt op s
  let (t, s2) := PopSignedBigInt op s1
  match sh, t with
  | .error e, _ => trapWith op.Name e s2
  | _, .error e => trapWith op.Name e s2
  | .ok shiftsBigInt, .ok tos =>
    match BigIntToUInt shiftsBigInt with
    | .error e => trapWith op.Name e s2
    | .ok nrOfShifts =>
      pushResult op (SignedByteArrayConversion (tos * 2 ^ nrOfShifts)) s2

/-- Exec case `ShiftR`: like ShiftL with a floor right shift
(`big.Int.Rsh`, floor division by the power of two). -/
def caseShiftR (op : OpCode) (s : MachineState) : StepResult :=
  let (sh, s1) := PopSignedBigInt op s
  let (t, s2) := PopSignedBigInt op s1
  match sh, t with
  | .error e, _ => trapWith op.Name e s2
  | _, .error e => trapWith op.Name e s2
  | .ok shiftsBigInt, .ok tos =>
    match BigIntToUInt shiftsBigInt with
    | .error e => trapWith op.Name e s2
    | .ok nrOfShifts =>
      pushResult op (SignedByteArrayConversion (Int.ediv tos (2 ^ nrOfShifts))) s2

/-- Exec case `BitwiseNot`: pop one signed big integer and push its
complement (`big.Int.Not x = -x - 1`). -/
def caseBitwiseNot (op : OpCode) (s : MachineState) : StepResult :=
  match PopSignedBigInt op s with
  | (.error e, s1) => trapWith op.Name e s1
  | (.ok bigInt, s1) => pushResult op (SignedByteArrayConversion (-bigInt - 1)) s1

/-- Exec case `NoOp`: fetch and discard one immediate byte. -/
def caseNoOp (op : OpCode) (s : MachineState) : StepResult :=
  match fetch s with
  | (.error e, s1) => trapWith op.Name e s1
  | (.ok _, s1) => .cont s1

/-- Exec case `Jmp`: unconditional jump to a two-byte big-endian label. -/
def caseJmp (op : OpCode) (s : MachineState) : StepResult :=
  match fetchMany s 2 with
  | (.error e, s1) => trapWith op.Name e s1
  | (.ok nextInstruction, s1) => .cont { s1 with pc := beToNat nextInstruction }

/-- Exec case `JmpTrue`: jump when the popped boolean is true. -/
def caseJmpTrue (op : OpCode) (s : MachineState) : StepResult :=
  let (a, s1) := fetchMany s 2
  let (r, s2) := PopBytes op s1
  match a, r with
  | .error e, _ => trapWith op.Name e s2
  | _, .error e => trapWith op.Name e s2
  | .ok nextInstruction, .ok right =>
    if ByteArrayToBool right then .cont { s2 with pc := ByteArrayToInt nextInstruction }
    else .cont s2

/-- Exec case `JmpFalse`: jump when the popped boolean is false. -/
def caseJmpFalse (op : OpCode) (s : MachineState) : StepResult :=
  let (a, s1) := fetchMany s 2
  let (r, s2) := PopBytes op s1
  match a, r with
  | .error e, _ => trapWith op.Name e s2
  | _, .error e => trapWith op.Name e s2
  | .ok nextInstruction, .ok right =>
    if ByteArrayToBool right then .cont s2
    else .cont { s2 with pc := ByteArrayToInt nextInstruction }

/-- The argument-loading loop of `Call` and `CallTrue`: for `i` from
`argsToLoad - 1` down to 0, a metered pop is stored at local index `i`. -/
def loadArgs (op : OpCode) : Nat → (Nat → Bytes) → MachineState →
    Except String (Nat → Bytes) × MachineState
  | 0, vars, s => (.ok vars, s)
  | n + 1, vars, s =>
    match PopBytes op s with
    | (.error e, s1) => (.error e, s1)
    | (.ok v, s1) => loadArgs op n (fun k => if k = n then v else vars k) s1

/-- Exec case `Call`: fetch a two-byte label and the argument and
return-type counts; the label must lie in `1..len(code)`; pop the arguments
into the new frame's locals; record the post-pop stack depth; jump. -/
def caseCall (op : OpCode) (s : MachineState) : StepResult :=
  let (a1, s1) := fetchMany s 2
  let (a2, s2) := fetch s1
  let (a3, s3) := fetch s2
  match a1, a2, a3 with
  | .error e, _, _ => trapWith op.Name e s3
  | _, .error e, _ => trapWith op.Name e s3
  | _, _, .error e => trapWith op.Name e s3
  | .ok returnAddressBytes, .ok argsToLoad, .ok nrOfReturnTypesByte =>
    let returnAddress := beToNat returnAddressBytes
    if returnAddress = 0 ∨ returnAddress > s3.code.length then
      trapWith op.Name msgRetAddrOOB s3
    else if (nrOfReturnTypesByte : Int) < 0 then
      trapWith op.Name msgNretNegative s3
    else
      match loadArgs op argsToLoad (fun _ => []) s3 with
      | (.error e, s4) => trapWith op.Name e s4
      | (.ok vars, s4) =>
        let frame : Frame :=
          { returnAddress := s4.pc, vars := vars,
            evalStackOffset := s4.evalStack.length,
            nrOfReturnTypes := nrOfReturnTypesByte }
        .cont { s4 with callStack := frame :: s4.callStack, pc := returnAddress }

/-- Exec case `CallTrue`: the immediates are always fetched and the guard
boolean popped; the call itself happens only when the boolean is true. -/
def caseCallTrue (op : OpCode) (s : MachineState) : StepResult :=
  let (a1, s1) := fetchMany s 2
  let (a2, s2) := fetch s1
  let (a3, s3) := fetch s2
  let (rr, s4) := PopBytes op s3
  match a1, a2, a3, rr with
  | .error e, _, _, _ => trapWith op.Name e s4
  | _, .error e, _, _ => trapWith op.Name e s4
  | _, _, .error e, _ => trapWith op.Name e s4
  | _, _, _, .error e => trapWith op.Name e s4
  | .ok returnAddressBytes, .ok argsToLoad, .ok nrOfReturnTypesByte, .ok right =>
    if ByteArrayToBool right then
      let returnAddress := beToNat returnAddressBytes
      if returnAddress = 0 ∨ returnAddress > s4.code.length then
        trapWith op.Name msgRetAddrOOB s4
      else if (nrOfReturnTypesByte : Int) < 0 then
        trapWith op.Name msgNretNegative s4
      else
        match loadArgs op argsToLoad (fun _ => []) s4 with
        | (.error e, s5) => trapWith op.Name e s5
        | (.ok vars, s5) =>
          let frame : Frame :=
            { returnAddress := s5.pc, vars := vars,
              evalStackOffset := s5.evalStack.length,
              nrOfReturnTypes := nrOfReturnTypesByte }
          .cont { s5 with callStack := frame :: s5.callStack, pc := returnAddress }
    else .cont s4

/-- Exec case `CallExt`: the immediates (32-byte address, 4-byte function
hash, argument count) are decoded; the cross-contract call is a stub. -/
def caseCallExt (op : OpCode) (s : MachineState) : StepResult :=
  let (a1, s1) := fetchMany s 32
  let (a2, s2) := fetchMany s1 4
  let (a3, s3) := fetch s2
  match a1, a2, a3 with
  | .error e, _, _ => trapWith op.Name e s3
  | _, .error e, _ => trapWith op.Name e s3
  | _, _, .error e => trapWith op.Name e s3
  | .ok _, .ok _, .ok _ => .cont s3

/-- Exec case `Ret`: peek the top frame (an empty call stack pushes the peek
error twice, once in checkErrors and once in the guarded body); the current
stack depth minus the frame's offset must equal the declared return count
(compared as Go ints); then the frame is popped and pc restored. -/
def caseRet (op : OpCode) (s : MachineState) : StepResult :=
  match s.callStack with
  | [] =>
    .trap (pushIgn (pushIgn s (wrapMsg op.Name msgPeekEmptyCallStack))
      (wrapMsg op.Name msgPeekEmptyCallStack))
  | callstackTos :: rest =>
    if ((s.evalStack.length : Int) - (callstackTos.evalStackOffset : Int)) ≠
        (callstackTos.nrOfReturnTypes : Int) then
      trapWith op.Name msgRetMismatch s
    else
      .cont { s with callStack := rest, pc := callstackTos.returnAddress }

/-- Exec case `Size`: push the popped value's byte length as 8 bytes
little-endian. -/
def caseSize (op : OpCode) (s : MachineState) : StepResult :=
  match PopBytes op s with
  | (.error e, s1) => trapWith op.Name e s1
  | (.ok element, s1) => pushResult op (UInt64ToByteArray element.length) s1

/-- Exec case `StoreSt`: pop a value and stage it as contract variable
`index` through the host; host errors surface verbatim. -/
def caseStoreSt (ctx : Context) (op : OpCode) (s : MachineState) : StepResult :=
  let (iRes, s1) := fetch s
  let (vRes, s2) := PopBytes op s1
  match iRes, vRes with
  | .error e, _ => trapWith op.Name e s2
  | _, .error e => trapWith op.Name e s2
  | .ok index, .ok value =>
    match ctx.SetContractVariable index value with
    | .error e => trapWith op.Name e s2
    | .ok _ => .cont s2

/-- Exec case `StoreLoc`: pop a value into the top frame's local `address`. -/
def caseStoreLoc (op : OpCode) (s : MachineState) : StepResult :=
  let (aRes, s1) := fetch s
  let (rRes, s2) := PopBytes op s1
  match aRes, rRes with
  | .error e, _ => trapWith op.Name e s2
  | _, .error e => trapWith op.Name e s2
  | .ok address, .ok right =>
    match s2.callStack with
    | [] => trapWith op.Name msgPeekEmptyCallStack s2
    | callstackTos :: rest =>
      .cont { s2 with callStack :=
        { callstackTos with vars := fun k => if k = address then right else callstackTos.vars k }
          :: rest }

/-- Exec case `LoadSt`: read contract variable `index` from the host and
push it. -/
def caseLoadSt (ctx : Context) (op : OpCode) (s : MachineState) : StepResult :=
  match fetch s with
  | (.error e, s1) => trapWith op.Name e s1
  | (.ok index, s1) =>
    match ctx.GetContractVariable index with
    | .error e => trapWith op.Name e s1
    | .ok value => pushResult op value s1

/-- Exec case `LoadLoc`: push the top frame's local `address` (missing
entries read as the empty slice). -/
def caseLoadLoc (op : OpCode) (s : MachineState) : StepResult :=
  match fetch s with
  | (.error e, s1) => trapWith op.Name e s1
  | (.ok address, s1) =>
    match s1.callStack with
    | [] => trapWith op.Name msgPeekEmptyCallStack s1
    | callstackTos :: _ => pushResult op (callstackTos.vars address) s1

/-- Exec case `Address`: push the 64-byte account address. -/
def caseAddress (ctx : Context) (op : OpCode) (s : MachineState) : StepResult :=
  pushResult op ctx.GetAddress s

/-- Exec case `Issuer`: push the 32-byte issuer. -/
def caseIssuer (ctx : Context) (op : OpCode) (s : MachineState) : StepResult :=
  pushResult op ctx.GetIssuer s

/-- Exec case `Balance`: push the balance as 8 bytes little-endian. -/
def caseBalance (ctx : Context) (op : OpCode) (s : MachineState) : StepResult :=
  pushResult op (UInt64ToByteArray ctx.GetBalance) s

/-- Exec case `Caller`: push the 32-byte sender. -/
def caseCaller (ctx : Context) (op : OpCode) (s : MachineState) : StepResult :=
  pushResult op ctx.GetSender s

/-- Exec case `CallVal`: push the transacted amount as 8 bytes
little-endian. -/
def caseCallVal (ctx : Context) (op : OpCode) (s : MachineState) : StepResult :=
  pushResult op (UInt64ToByteArray ctx.GetAmount) s

/-- The CallData loop over the transaction data: each parameter is a length
byte followed by that many bytes, pushed in order; a declared length that
overruns the blob traps. -/
def callDataLoop (op : OpCode) (td : Bytes) (s : MachineState) : StepResult :=
  match td with
  | [] => .cont s
  | l :: rest =>
    if rest.length < l then trapWith op.Name msgIndexOOBCap s
    else
      match doPush s (rest.take l) with
      | (some e, s1) => trapWith op.Name e s1
      | (none, s1) => callDataLoop op (rest.drop l) s1
termination_by td.length
decreasing_by simp [List.length_drop]; omega

/-- Exec case `CallData`: run the parameter loop over the host transaction
data. -/
def caseCallData (ctx : Context) (op : OpCode) (s : MachineState) : StepResult :=
  callDataLoop op ctx.GetTransactionData s

/-- Exec case `NewMap`: push the empty map blob. -/
def caseNewMap (pr : Prims) (op : OpCode) (s : MachineState) : StepResult :=
  pushResult op pr.CreateMap s

/-- Exec case `MapHasKey`: pop the map then the key; the boolean result push
discards its error. -/
def caseMapHasKey (pr : Prims) (op : OpCode) (s : MachineState) : StepResult :=
  match PopBytes op s with
  | (.error e, s1) => trapWith op.Name e s1
  | (.ok mba, s1) =>
    match pr.MapFromByteArray mba with
    | .error e => trapWith op.Name e s1
    | .ok m =>
      match PopBytes op s1 with
      | (.error e, s2) => trapWith op.Name e s2
      | (.ok k, s2) =>
        match pr.MapContainsKey m k with
        | .error e => trapWith op.Name e s2
        | .ok result => pushIgnCont s2 (BoolToByteArray result)

/-- Exec case `MapGetVal`: pop the map then the key and push the value. -/
def caseMapGetVal (pr : Prims) (op : OpCode) (s : MachineState) : StepResult :=
  match PopBytes op s with
  | (.error e, s1) => trapWith op.Name e s1
  | (.ok mapAsByteArray, s1) =>
    match PopBytes op s1 with
    | (.error e, s2) => trapWith op.Name e s2
    | (.ok k, s2) =>
      match pr.MapFromByteArray mapAsByteArray with
      | .error e => trapWith op.Name e s2
      | .ok m =>
        match pr.MapGetVal m k with
        | .error e => trapWith op.Name e s2
        | .ok v => pushResult op v s2

/-- Exec case `MapSetVal`: pop the map, key and value; set when the key is
present, append otherwise; push the updated map. -/
def caseMapSetVal (pr : Prims) (op : OpCode) (s : MachineState) : StepResult :=
  match PopBytes op s with
  | (.error e, s1) => trapWith op.Name e s1
  | (.ok mapAsByteArray, s1) =>
    match pr.MapFromByteArray mapAsByteArray with
    | .error e => trapWith op.Name e s1
    | .ok m =>
      match PopBytes op s1 with
      | (.error e, s2) => trapWith op.Name e s2
      | (.ok k, s2) =>
        match PopBytes op s2 with
        | (.error e, s3) => trapWith op.Name e s3
        | (.ok v, s3) =>
          match pr.MapContainsKey m k with
          | .error e => trapWith op.Name e s3
          | .ok hasKey =>
            match (if hasKey then pr.MapSetVal m k v else pr.MapAppend m k v) with
            | .error e => trapWith op.Name e s3
            | .ok m1 => pushResult op m1 s3

/-- Exec case `MapRemove`: pop the map then the key; push the map without
the key. -/
def caseMapRemove (pr : Prims) (op : OpCode) (s : MachineState) : StepResult :=
  match PopBytes op s with
  | (.error e, s1) => trapWith op.Name e s1
  | (.ok mapAsByteArray, s1) =>
    match PopBytes op s1 with
    | (.error e, s2) => trapWith op.Name e s2
    | (.ok k, s2) =>
      match pr.MapFromByteArray mapAsByteArray with
      | .error e => trapWith op.Name e s2
      | .ok m =>
        match pr.MapRemoveKey m k with
        | .error e => trapWith op.Name e s2
        | .ok m1 => pushResult op m1 s2

/-- The `NewArr` initialisation loop: append `n` single-zero elements. -/
def appendZerosN (pr : Prims) : Nat → Bytes → Except String Bytes
  | 0, a => .ok a
  | n + 1, a =>
    match pr.ArrAppendElem a [0] with
    | .error e => .error e
    | .ok a1 => appendZerosN pr n a1

/-- Exec case `NewArr`: pop an unsigned size and push an array of that many
zero-initialised single-byte elements. -/
def caseNewArr (pr : Prims) (op : OpCode) (s : MachineState) : StepResult :=
  match PopUnsignedBigInt op s with
  | (.error e, s1) => trapWith op.Name e s1
  | (.ok length, s1) =>
    match appendZerosN pr length.toNat pr.NewArray with
    | .error e => trapWith op.Name e s1
    | .ok a => pushResult op a s1

/-- Exec case `ArrAppend`: pop the array then the value (the value's pop
error is checked first); append; push the array. -/
def caseArrAppend (pr : Prims) (op : OpCode) (s : MachineState) : StepResult :=
  let (aRes, s1) := PopBytes op s
  let (vRes, s2) := PopBytes op s1
  match vRes, aRes with
  | .error e, _ => trapWith op.Name e s2
  | _, .error e => trapWith op.Name e s2
  | .ok v, .ok a =>
    match pr.ArrayFromByteArray a with
    | .error e => trapWith op.Name e s2
    | .ok arr =>
      match pr.ArrAppendElem arr v with
      | .error _ => trapWith op.Name msgArrAppendSize s2
      | .ok arr1 => pushResult op arr1 s2

/-- Exec case `ArrInsert`: pop the array, the index and the element; the
index must be below the array size. -/
def caseArrInsert (pr : Prims) (op : OpCode) (s : MachineState) : StepResult :=
  match PopBytes op s with
  | (.error e, s1) => trapWith op.Name e s1
  | (.ok a, s1) =>
    match PopUnsignedBigInt op s1 with
    | (.error e, s2) => trapWith op.Name e s2
    | (.ok i, s2) =>
      match PopBytes op s2 with
      | (.error e, s3) => trapWith op.Name e s3
      | (.ok element, s3) =>
        match pr.ArrayFromByteArray a with
        | .error e => trapWith op.Name e s3
        | .ok arr =>
          match BigIntToUInt16 i with
          | .error e => trapWith op.Name e s3
          | .ok index =>
            match pr.ArrGetSize arr with
            | .error e => trapWith op.Name e s3
            | .ok size =>
              if index ≥ size then trapWith op.Name msgIndexOOBCap s3
              else
                match pr.ArrInsertAt arr index element with
                | .error e => trapWith op.Name e s3
                | .ok arr1 => pushResult op arr1 s3

/-- Exec case `ArrRemove`: pop the array then the index and remove the
element there. -/
def caseArrRemove (pr : Prims) (op : OpCode) (s : MachineState) : StepResult :=
  match PopBytes op s with
  | (.error e, s1) => trapWith op.Name e s1
  | (.ok a, s1) =>
    match PopUnsignedBigInt op s1 with
    | (.error e, s2) => trapWith op.Name e s2
    | (.ok i, s2) =>
      match BigIntToUInt16 i with
      | .error e => trapWith op.Name e s2
      | .ok index =>
        match pr.ArrayFromByteArray a with
        | .error e => trapWith op.Name e s2
        | .ok arr =>
          match pr.ArrRemoveAt arr index with
          | .error e => trapWith op.Name e s2
          | .ok arr1 => pushResult op arr1 s2

/-- Exec case `ArrAt`: pop the array then the index and push the element. -/
def caseArrAt (pr : Prims) (op : OpCode) (s : MachineState) : StepResult :=
  match PopBytes op s with
  | (.error e, s1) => trapWith op.Name e s1
  | (.ok a, s1) =>
    match PopUnsignedBigInt op s1 with
    | (.error e, s2) => trapWith op.Name e s2
    | (.ok i, s2) =>
      match BigIntToUInt16 i with
      | .error e => trapWith op.Name e s2
      | .ok index =>
        match pr.ArrayFromByteArray a with
        | .error e => trapWith op.Name e s2
        | .ok arr =>
          match pr.ArrAtIndex arr index with
          | .error e => trapWith op.Name e s2
          | .ok element => pushResult op element s2

/-- Exec case `ArrLen`: pop the array and push its size as a signed big
integer encoding. -/
def caseArrLen (pr : Prims) (op : OpCode) (s : MachineState) : StepResult :=
  match PopBytes op s with
  | (.error e, s1) => trapWith op.Name e s1
  | (.ok a, s1) =>
    match pr.ArrayFromByteArray a with
    | .error e => trapWith op.Name e s1
    | .ok arr =>
      match pr.ArrGetSize arr with
      | .error e => trapWith op.Name e s1
      | .ok length => pushResult op (SignedByteArrayConversion (length : Int)) s1

/-- Exec case `NewStr`: a two-byte field count; a failed push of the new
struct returns false with no message. -/
def caseNewStr (pr : Prims) (op : OpCode) (s : MachineState) : StepResult :=
  match fetchMany s 2 with
  | (.error e, s1) => trapWith op.Name e s1
  | (.ok sizeBytes, s1) =>
    match pr.ByteArrayToUI16 sizeBytes with
    | .error e => trapWith op.Name e s1
    | .ok size => pushOrSilentTrap s1 (pr.newStructOf size)

/-- Exec case `StoreFld`: fetch the field index, pop the element then the
struct (the struct's error is checked first); store; a failed push of the
updated struct returns false with no message. -/
def caseStoreFld (pr : Prims) (op : OpCode) (s : MachineState) : StepResult :=
  let (iRes, s1) := fetchMany s 2
  let (eRes, s2) := PopBytes op s1
  let (stRes, s3) := PopBytes op s2
  match stRes, iRes, eRes with
  | .error e, _, _ => trapWith op.Name e s3
  | _, .error e, _ => trapWith op.Name e s3
  | _, _, .error e => trapWith op.Name e s3
  | .ok structBytes, .ok indexBytes, .ok element =>
    match pr.structFromByteArray structBytes, pr.ByteArrayToUI16 indexBytes with
    | .error e, _ => trapWith op.Name e s3
    | _, .error e => trapWith op.Name e s3
    | .ok str, .ok index =>
      match pr.storeFieldAt str index element with
      | .error e => trapWith op.Name e s3
      | .ok str1 => pushOrSilentTrap s3 str1

/-- Exec case `LoadFld`: fetch the field index, pop the struct, push the
field; a failed push of the element returns false with no message. -/
def caseLoadFld (pr : Prims) (op : OpCode) (s : MachineState) : StepResult :=
  let (iRes, s1) := fetchMany s 2
  let (stRes, s2) := PopBytes op s1
  match stRes, iRes with
  | .error e, _ => trapWith op.Name e s2
  | _, .error e => trapWith op.Name e s2
  | .ok structBytes, .ok indexBytes =>
    match pr.structFromByteArray structBytes, pr.ByteArrayToUI16 indexBytes with
    | .error e, _ => trapWith op.Name e s2
    | _, .error e => trapWith op.Name e s2
    | .ok str, .ok index =>
      match pr.loadFieldAt str index with
      | .error e => trapWith op.Name e s2
      | .ok element => pushOrSilentTrap s2 element

/-- Exec case `SHA3`: pop a value and push its 32-byte digest. -/
def caseSHA3 (pr : Prims) (op : OpCode) (s : MachineState) : StepResult :=
  match PopBytes op s with
  | (.error e, s1) => trapWith op.Name e s1
  | (.ok right, s1) => pushResult op (pr.sha3 right) s1

/-- Exec case `CheckSig`: pop a 64-byte public key and a 32-byte hash,
verify the context signature, and push the boolean (its push error is
discarded). -/
def caseCheckSig (ctx : Context) (pr : Prims) (op : OpCode) (s : MachineState) : StepResult :=
  let (pkRes, s1) := PopBytes op s
  let (hRes, s2) := PopBytes op s1
  match pkRes, hRes with
  | .error e, _ => trapWith op.Name e s2
  | _, .error e => trapWith op.Name e s2
  | .ok publicKeySig, .ok hash =>
    if publicKeySig.length ≠ 64 then trapWith op.Name msgNotValidAddress s2
    else if hash.length ≠ 32 then trapWith op.Name msgNotValidHash s2
    else pushIgnCont s2 (BoolToByteArray (pr.ecdsaVerify publicKeySig hash ctx.GetSig1))

/-- Exec case `ErrHalt`: return failure with no message. -/
def caseErrHalt (s : MachineState) : StepResult := .trap s

/-- Exec case `Halt`: return success. -/
def caseHalt (s : MachineState) : StepResult := .halt s

/-- The decode switch of `VM.Exec` on `opCode.code` (constants of
op_codes.go noted next to each arm); an unmatched code falls through to the
next loop iteration, as a Go switch without default does. -/
def dispatch (ctx : Context) (pr : Prims) (op : OpCode) (s : MachineState) : StepResult :=
  match op.code with
  | 0 => casePushInt op s                                           -- PushInt
  | 1 => casePushBool op s                                          -- PushBool
  | 2 => casePushChar op s                                          -- PushChar
  | 3 => casePushStr op s                                           -- PushStr
  | 4 => casePush op s                                              -- Push
  | 5 => caseDup op s                                               -- Dup
  | 6 => caseRoll op s                                              -- Roll
  | 7 => caseSwap op s                                              -- Swap
  | 8 => casePop op s                                               -- Pop
  | 9 => evaluateBigIntOperation op (fun l r => l + r) s            -- Add
  | 10 => evaluateBigIntOperation op (fun l r => l - r) s           -- Sub
  | 11 => evaluateBigIntOperation op (fun l r => l * r) s           -- Mul
  | 12 => caseDiv op s                                              -- Div
  | 13 => caseMod op s                                              -- Mod
  | 14 => caseExp op s                                              -- Exp
  | 15 => caseNeg op s                                              -- Neg
  | 16 => caseEq op s                                               -- Eq
  | 17 => caseNotEq op s                                            -- NotEq
  | 18 => evaluateRelationalComp op [-1] s                          -- Lt
  | 19 => evaluateRelationalComp op [1] s                           -- Gt
  | 20 => evaluateRelationalComp op [-1, 0] s                       -- LtEq
  | 21 => evaluateRelationalComp op [0, 1] s                        -- GtEq
  | 22 => caseShiftL op s                                           -- ShiftL
  | 23 => caseShiftR op s                                           -- ShiftR
  | 24 => evaluateBigIntOperation op (fun l r => Int.land l r) s    -- BitwiseAnd
  | 25 => evaluateBigIntOperation op (fun l r => Int.lor l r) s     -- BitwiseOr
  | 26 => evaluateBigIntOperation op (fun l r => Int.xor l r) s     -- BitwiseXor
  | 27 => caseBitwiseNot op s                                       -- BitwiseNot
  | 28 => caseNoOp op s                                             -- NoOp
  | 29 => caseJmp op s                                              -- Jmp
  | 30 => caseJmpTrue op s                                          -- JmpTrue
  | 31 => caseJmpFalse op s                                         -- JmpFalse
  | 32 => caseCall op s                                             -- Call
  | 33 => caseCallTrue op s                                         -- CallTrue
  | 34 => caseCallExt op s                                          -- CallExt
  | 35 => caseRet op s                                              -- Ret
  | 36 => caseSize op s                                             -- Size
  | 37 => caseStoreLoc op s                                         -- StoreLoc
  | 38 => caseStoreSt ctx op s                                      -- StoreSt
  | 39 => caseLoadLoc op s                                          -- LoadLoc
  | 40 => caseLoadSt ctx op s                                       -- LoadSt
  | 41 => caseAddress ctx op s                                      -- Address
  | 42 => caseIssuer ctx op s                                       -- Issuer
  | 43 => caseBalance ctx op s                                      -- Balance
  | 44 => caseCaller ctx op s                                       -- Caller
  | 45 => caseCallVal ctx op s                                      -- CallVal
  | 46 => caseCallData ctx op s                                     -- CallData
  | 47 => caseNewMap pr op s                                        -- NewMap
  | 48 => caseMapHasKey pr op s                                     -- MapHasKey
  | 49 => caseMapGetVal pr op s                                     -- MapGetVal
  | 50 => caseMapSetVal pr op s                                     -- MapSetVal
  | 51 => caseMapRemove pr op s                                     -- MapRemove
  | 52 => caseNewArr pr op s                                        -- NewArr
  | 53 => caseArrAppend pr op s                                     -- ArrAppend
  | 54 => caseArrInsert pr op s                                     -- ArrInsert
  | 55 => caseArrRemove pr op s                                     -- ArrRemove
  | 56 => caseArrAt pr op s                                         -- ArrAt
  | 57 => caseArrLen pr op s                                        -- ArrLen
  | 58 => caseNewStr pr op s                                        -- NewStr
  | 59 => caseStoreFld pr op s                                      -- StoreFld
  | 60 => caseLoadFld pr op s                                       -- LoadFld
  | 61 => caseSHA3 pr op s                                          -- SHA3
  | 62 => caseCheckSig ctx pr op s                                  -- CheckSig
  | 63 => caseErrHalt s                                             -- ErrHalt
  | 64 => caseHalt s                                                -- Halt
  | _ => .cont s

/-- One iteration of the Exec loop: fetch the opcode byte (failures use the
`vm.exec()` prefix), reject bytes beyond the table, charge the base gas
price, and dispatch.  The ghost `pushErr` flag is cleared at the start of
the instruction. -/
def step (ctx : Context) (pr : Prims) (s0 : MachineState) : StepResult :=
  let s := { s0 with pushErr := false }
  match fetch s with
  | (.error e, s1) => trapWith vmExecLoc e s1
  | (.ok byteCode, s1) =>
    if OpCodes.length ≤ byteCode then trapWith vmExecLoc msgNotValidOpCode s1
    else
      let op := OpCodes.getD byteCode defaultOpCode
      if s1.fee < op.gasPrice then trapWith vmExecLoc msgBaseOutOfGas s1
      else dispatch ctx pr op { s1 with fee := s1.fee - op.gasPrice }

/-- Outcome of a fuel-bounded run of the Exec loop. -/
inductive RunResult where
  | done (success : Bool) (s : MachineState)
  | crashed (s : MachineState)
  | fuelOut

/-- The Exec loop, bounded by fuel (every instruction except the two
zero-priced halts consumes gas, so real executions are finite). -/
def runLoop (ctx : Context) (pr : Prims) : Nat → MachineState → RunResult
  | 0, _ => .fuelOut
  | fuel + 1, s =>
    match step ctx pr s with
    | .cont s1 => runLoop ctx pr fuel s1
    | .halt s1 => .done true s1
    | .trap s1 => .done false s1
    | .crashed s1 => .crashed s1

/-- `VM.Exec` (with trace off): load code and fee from the context, reject
contracts longer than 100000 bytes, then run the loop. -/
def vmExec (ctx : Context) (pr : Prims) (memoryMax : Nat) (fuel : Nat) : RunResult :=
  let s : MachineState :=
    { code := ctx.GetContract, pc := 0, fee := ctx.GetFee, evalStack := [],
      memoryUsage := 0, memoryMax := memoryMax, callStack := [], pushErr := false }
  if ctx.GetContract.length > 100000 then
    .done false (pushIgn s (strBytes (vmExecLoc ++ ": " ++ msgInstrTooBig)))
  else runLoop ctx pr fuel s

/-- A concrete context holding only bytecode and a fee, as `NewMockContext`
provides for the test scenarios; all other host data is empty or zero. -/
def mkContext (code : Bytes) (fee : Nat) : Context :=
  { GetContract := code,
    GetContractVariable := fun _ => .error msgIndexOOBCap,
    SetContractVariable := fun _ _ => .ok (),
    GetAddress := List.replicate 64 0,
    GetIssuer := List.replicate 32 0,
    GetBalance := 0,
    GetSender := List.replicate 32 0,
    GetAmount := 0,
    GetTransactionData := [],
    GetFee := fee,
    GetSig1 := List.replicate 64 0 }

/-- An arbitrary instantiation of the abstract container and crypto helpers,
used only to run scenarios that never touch them. -/
def trivialPrims : Prims :=
  { CreateMap := [1, 0, 0],
    MapFromByteArray := fun b => .ok b,
    MapContainsKey := fun _ _ => .ok false,
    MapGetVal := fun _ _ => .error msgIndexOOBCap,
    MapSetVal := fun m _ _ => .ok m,
    MapAppend := fun m _ _ => .ok m,
    MapRemoveKey := fun m _ => .ok m,
    NewArray := [2, 0, 0],
    ArrayFromByteArray := fun b => .ok b,
    ArrAppendElem := fun a _ => .ok a,
    ArrInsertAt := fun a _ _ => .ok a,
    ArrRemoveAt := fun a _ => .ok a,
    ArrAtIndex := fun _ _ => .error msgIndexOOBCap,
    ArrGetSize := fun _ => .ok 0,
    newStructOf := fun _ => [2, 0, 0],
    structFromByteArray := fun b => .ok b,
    storeFieldAt := fun b _ _ => .ok b,
    loadFieldAt := fun _ _ => .ok [],
    ByteArrayToUI16 := fun b => .ok (beToNat b),
    sha3 := fun _ => List.replicate 32 0,
    ecdsaVerify := fun _ _ _ => false }

/-- Machine-representation invariant inherited from Go: every evaluation
stack element is a slice, whose length fits a 64-bit signed int. -/
def LenInv (s : MachineState) : Prop := ∀ b ∈ s.evalStack, b.length < 2 ^ 63

/-- Representation invariant: slice lengths bounded and the `uint64` fee in
range. -/
def MInv (s : MachineState) : Prop := LenInv s ∧ s.fee < U64MOD

theorem doPush_fee (s : MachineState) (b : Bytes) : ((doPush s b).2).fee = s.fee := by
  unfold doPush stackPush
  by_cases hC : s.memoryUsage + b.length > s.memoryMax <;> simp [hC]

theorem pushIgn_fee (s : MachineState) (b : Bytes) : (pushIgn s b).fee = s.fee :=
  doPush_fee s b

theorem pushIgn_pushErr_true (s : MachineState) (b : Bytes) (h : s.pushErr = true) :
    (pushIgn s b).pushErr = true := by
  unfold pushIgn doPush stackPush
  by_cases hC : s.memoryUsage + b.length > s.memoryMax <;> simp [hC, h]

theorem doPush_some_pushErr (s : MachineState) (b : Bytes) (e : String) (t : MachineState)
    (h : doPush s b = (some e, t)) : t.pushErr = true := by
  unfold doPush stackPush at h
  by_cases hC : s.memoryUsage + b.length > s.memoryMax
  · simp [hC] at h
    rw [← h.2]
  · simp [hC] at h

theorem doPush_none (s : MachineState) (b : Bytes) (t : MachineState)
    (h : doPush s b = (none, t)) :
    t = { s with evalStack := b :: s.evalStack, memoryUsage := s.memoryUsage + b.length } := by
  unfold doPush stackPush at h
  by_cases hC : s.memoryUsage + b.length > s.memoryMax
  · simp [hC] at h
  · simp [hC] at h
    exact h.symm

theorem pushIgn_pushErr_false (s : MachineState) (b : Bytes)
    (h : (pushIgn s b).pushErr = false) :
    (pushIgn s b).evalStack = b :: s.evalStack := by
  unfold pushIgn at *
  rcases hd : doPush s b with ⟨e, t⟩
  cases e with
  | none => rw [doPush_none s b t hd]
  | some e0 =>
    have ht := doPush_some_pushErr s b e0 t hd
    rw [hd] at h
    have hf : t.pushErr = false := h
    rw [ht] at hf
    cases hf

theorem trapWith_st (loc m : String) (s : MachineState) :
    (trapWith loc m s).st = pushIgn s (wrapMsg loc m) := rfl

theorem trapWith_st_fee (loc m : String) (s : MachineState) :
    (trapWith loc m s).st.fee = s.fee := pushIgn_fee s (wrapMsg loc m)

theorem pushResult_st_fee (op : OpCode) (b : Bytes) (s : MachineState) :
    (pushResult op b s).st.fee = s.fee := by
  unfold pushResult
  rcases hd : doPush s b with ⟨e, t⟩
  have ht : t.fee = s.fee := by
    have := doPush_fee s b
    rw [hd] at this
    exact this
  cases e with
  | none => simpa [StepResult.st]
  | some e0 =>
    show (trapWith op.Name e0 t).st.fee = s.fee
    rw [trapWith_st, pushIgn_fee]
    exact ht

theorem pushOrSilentTrap_st_fee (s : MachineState) (b : Bytes) :
    (pushOrSilentTrap s b).st.fee = s.fee := by
  unfold pushOrSilentTrap
  rcases hd : doPush s b with ⟨e, t⟩
  have ht : t.fee = s.fee := by
    have := doPush_fee s b
    rw [hd] at this
    exact this
  cases e with
  | none => simpa [StepResult.st]
  | some e0 => simpa [StepResult.st]

theorem pushIgnCont_st_fee (s : MachineState) (b : Bytes) :
    (pushIgnCont s b).st.fee = s.fee := by
  simpa [pushIgnCont, StepResult.st] using pushIgn_fee s b

theorem fetch_inv (s : MachineState) :
    ((fetch s).2).fee = s.fee ∧ ((fetch s).2).evalStack = s.evalStack ∧
      ((fetch s).2).pushErr = s.pushErr := by
  unfold fetch
  split <;> exact ⟨rfl, rfl, rfl⟩

theorem fetchMany_inv (s : MachineState) (n : Nat) :
    ((fetchMany s n).2).fee = s.fee ∧ ((fetchMany s n).2).evalStack = s.evalStack ∧
      ((fetchMany s n).2).pushErr = s.pushErr := by
  unfold fetchMany
  split <;> exact ⟨rfl, rfl, rfl⟩

theorem fetch_MInv (s : MachineState) (hs : MInv s) : MInv ((fetch s).2) := by
  obtain ⟨h1, h2, _⟩ := fetch_inv s
  exact ⟨by unfold LenInv; rw [h2]; exact hs.1, by rw [h1]; exact hs.2⟩

theorem fetchMany_MInv (s : MachineState) (n : Nat) (hs : MInv s) :
    MInv ((fetchMany s n).2) := by
  obtain ⟨h1, h2, _⟩ := fetchMany_inv s n
  exact ⟨by unfold LenInv; rw [h2]; exact hs.1, by rw [h1]; exact hs.2⟩

theorem u64sub_le_of_notNeg (a b : Nat) (ha : a < U64MOD) (hb : b < 2 ^ 63)
    (h : ¬ int64IsNeg (u64sub a b) = true) : u64sub a b ≤ a := by
  unfold int64IsNeg u64sub U64MOD at *
  simp only [decide_eq_true_eq] at h
  omega

theorem u64sub_lt_mod (a b : Nat) : u64sub a b < U64MOD := by
  unfold u64sub U64MOD
  omega

theorem stackPop_nil (s : MachineState) (h : s.evalStack = []) :
    stackPop s = .error msgPopEmpty := by
  unfold stackPop
  rw [h]

theorem stackPop_cons (s : MachineState) (b : Bytes) (rest : List Bytes)
    (h : s.evalStack = b :: rest) :
    stackPop s =
      .ok (b, { s with evalStack := rest, memoryUsage := s.memoryUsage - b.length }) := by
  unfold stackPop
  rw [h]

/-- Core facts about the metered pop: the fee never increases and the
representation invariant is preserved. -/
theorem PopBytes_inv (op : OpCode) (s : MachineState) (hf : op.gasFactor ≤ 2)
    (hs : MInv s) : ((PopBytes op s).2).fee ≤ s.fee ∧ MInv ((PopBytes op s).2) := by
  cases hcs : s.evalStack with
  | nil =>
    unfold PopBytes
    rw [stackPop_nil s hcs]
    exact ⟨le_refl _, hs⟩
  | cons b rest =>
    unfold PopBytes
    rw [stackPop_cons s b rest hcs]
    try dsimp only
    have hb : b.length < 2 ^ 63 := hs.1 b (by rw [hcs]; exact List.mem_cons_self b rest)
    have hmul : op.gasFactor * ((b.length + 64 - 1) / 64) < 2 ^ 63 := by
      have h2 := Nat.mul_le_mul_right ((b.length + 64 - 1) / 64) hf
      omega
    have hmod : op.gasFactor * ((b.length + 64 - 1) / 64) % U64MOD =
        op.gasFactor * ((b.length + 64 - 1) / 64) := by
      apply Nat.mod_eq_of_lt
      unfold U64MOD
      omega
    rw [hmod]
    have htail : LenInv { s with evalStack := rest, memoryUsage := s.memoryUsage - b.length } := by
      intro x hx
      exact hs.1 x (by rw [hcs]; exact List.mem_cons_of_mem b hx)
    split
    · exact ⟨le_refl _, htail, hs.2⟩
    · rename_i hneg
      refine ⟨u64sub_le_of_notNeg s.fee _ hs.2 hmul hneg, htail, u64sub_lt_mod _ _⟩

theorem PopBytes_pushErr (op : OpCode) (s : MachineState) :
    ((PopBytes op s).2).pushErr = s.pushErr := by
  cases hcs : s.evalStack with
  | nil =>
    unfold PopBytes
    rw [stackPop_nil s hcs]
  | cons b rest =>
    unfold PopBytes
    rw [stackPop_cons s b rest hcs]
    try dsimp only
    split <;> rfl

theorem PopSignedBigInt_inv (op : OpCode) (s : MachineState) (hf : op.gasFactor ≤ 2)
    (hs : MInv s) :
    ((PopSignedBigInt op s).2).fee ≤ s.fee ∧ MInv ((PopSignedBigInt op s).2) := by
  unfold PopSignedBigInt
  rcases hp : PopBytes op s with ⟨r, s1⟩
  have h1 := PopBytes_inv op s hf hs
  rw [hp] at h1
  cases r with
  | error e => exact h1
  | ok bytes =>
    try dsimp only
    cases SignedBigIntConversion bytes with
    | error e => exact h1
    | ok v => exact h1

theorem PopSignedBigInt_pushErr (op : OpCode) (s : MachineState) :
    ((PopSignedBigInt op s).2).pushErr = s.pushErr := by
  unfold PopSignedBigInt
  rcases hp : PopBytes op s with ⟨r, s1⟩
  have h1 := PopBytes_pushErr op s
  rw [hp] at h1
  cases r with
  | error e => exact h1
  | ok bytes =>
    try dsimp only
    cases SignedBigIntConversion bytes with
    | error e => exact h1
    | ok v => exact h1

theorem PopUnsignedBigInt_inv (op : OpCode) (s : MachineState) (hf : op.gasFactor ≤ 2)
    (hs : MInv s) :
    ((PopUnsignedBigInt op s).2).fee ≤ s.fee ∧ MInv ((PopUnsignedBigInt op s).2) := by
  unfold PopUnsignedBigInt
  rcases hp : PopBytes op s with ⟨r, s1⟩
  have h1 := PopBytes_inv op s hf hs
  rw [hp] at h1
  cases r with
  | error e => exact h1
  | ok bytes =>
    try dsimp only
    cases UnsignedBigIntConversion bytes with
    | error e => exact h1
    | ok v => exact h1

theorem PopUnsignedBigInt_pushErr (op : OpCode) (s : MachineState) :
    ((PopUnsignedBigInt op s).2).pushErr = s.pushErr := by
  unfold PopUnsignedBigInt
  rcases hp : PopBytes op s with ⟨r, s1⟩
  have h1 := PopBytes_pushErr op s
  rw [hp] at h1
  cases r with
  | error e => exact h1
  | ok bytes =>
    try dsimp only
    cases UnsignedBigIntConversion bytes with
    | error e => exact h1
    | ok v => exact h1

/-- Second component of a destructured pair equation. -/
theorem pair_snd {α β : Type} {p : α × β} {r : α} {t : β} (h : p = (r, t)) : p.2 = t := by
  rw [h]

/-- The trap-diagnostic property: the evaluation stack is non-empty and its
top begins with `<name>: ` or with `vm.exec(): `. -/
def topDiag (name : String) (t : MachineState) : Prop :=
  ∃ d rest, t.evalStack = d :: rest ∧
    (startsWithB (strBytes (name ++ ": ")) d ∨ startsWithB (strBytes (vmExecLoc ++ ": ")) d)

theorem strBytes_append (a b : String) : strBytes (a ++ b) = strBytes a ++ strBytes b := by
  unfold strBytes
  rw [String.data_append, List.map_append]

theorem startsWithB_wrapMsg (loc m : String) :
    startsWithB (strBytes (loc ++ ": ")) (wrapMsg loc m) := by
  unfold startsWithB wrapMsg
  rw [strBytes_append (loc ++ ": ") m]
  exact List.take_left _ _

/-- Per-handler proof obligation for the gas and diagnostic claims: the fee
does not grow, and any trap with no failed push carries a prefixed
diagnostic on top. -/
def handlerOK (name : String) (s : MachineState) (res : StepResult) : Prop :=
  res.st.fee ≤ s.fee ∧ ∀ t, res = .trap t → t.pushErr = false → topDiag name t

theorem handlerOK_trapWith (name loc m : String) (s u : MachineState)
    (hloc : loc = name ∨ loc = vmExecLoc) (hfee : u.fee ≤ s.fee) :
    handlerOK name s (trapWith loc m u) := by
  constructor
  · rw [trapWith_st_fee]
    exact hfee
  · intro t ht hp
    have heq : t = pushIgn u (wrapMsg loc m) := by
      unfold trapWith at ht
      cases ht
      rfl
    subst heq
    have hstack := pushIgn_pushErr_false u (wrapMsg loc m) hp
    refine ⟨wrapMsg loc m, u.evalStack, hstack, ?_⟩
    cases hloc with
    | inl h => subst h; exact Or.inl (startsWithB_wrapMsg _ m)
    | inr h => subst h; exact Or.inr (startsWithB_wrapMsg _ m)

theorem handlerOK_cont (name : String) (s u : MachineState) (hfee : u.fee ≤ s.fee) :
    handlerOK name s (.cont u) := by
  exact ⟨hfee, fun t ht => by cases ht⟩

theorem handlerOK_halt (name : String) (s u : MachineState) (hfee : u.fee ≤ s.fee) :
    handlerOK name s (.halt u) := by
  exact ⟨hfee, fun t ht => by cases ht⟩

theorem handlerOK_crashed (name : String) (s u : MachineState) (hfee : u.fee ≤ s.fee) :
    handlerOK name s (.crashed u) := by
  exact ⟨hfee, fun t ht => by cases ht⟩

theorem handlerOK_pushResult (op : OpCode) (name : String) (b : Bytes) (s u : MachineState)
    (hname : op.Name = name) (hfee : u.fee ≤ s.fee) :
    handlerOK name s (pushResult op b u) := by
  constructor
  · rw [pushResult_st_fee]
    exact hfee
  · intro t ht hp
    unfold pushResult at ht
    rcases hd : doPush u b with ⟨e, u1⟩
    rw [hd] at ht
    cases e with
    | none => cases ht
    | some e0 =>
      have h1 := doPush_some_pushErr u b e0 u1 hd
      have heq : t = pushIgn u1 (wrapMsg op.Name e0) := by
        unfold trapWith at ht
        cases ht
        rfl
      subst heq
      rw [pushIgn_pushErr_true u1 _ h1] at hp
      cases hp

theorem handlerOK_pushOrSilentTrap (name : String) (b : Bytes) (s u : MachineState)
    (hfee : u.fee ≤ s.fee) : handlerOK name s (pushOrSilentTrap u b) := by
  constructor
  · rw [pushOrSilentTrap_st_fee]
    exact hfee
  · intro t ht hp
    unfold pushOrSilentTrap at ht
    rcases hd : doPush u b with ⟨e, u1⟩
    rw [hd] at ht
    cases e with
    | none => cases ht
    | some e0 =>
      have h1 := doPush_some_pushErr u b e0 u1 hd
      cases ht
      rw [h1] at hp
      cases hp

theorem handlerOK_pushIgnCont (name : String) (b : Bytes) (s u : MachineState)
    (hfee : u.fee ≤ s.fee) : handlerOK name s (pushIgnCont u b) := by
  constructor
  · rw [pushIgnCont_st_fee]
    exact hfee
  · intro t ht hp
    cases ht

theorem casePushInt_OK (op : OpCode) (s : MachineState) :
    handlerOK op.Name s (casePushInt op s) := by
  unfold casePushInt
  rcases hA : fetch s with ⟨r, s1⟩
  have hf1 : s1.fee = s.fee := by
    have hx := (fetch_inv s).1
    rw [pair_snd hA] at hx
    exact hx
  cases r with
  | error e => exact handlerOK_trapWith _ _ _ _ _ (Or.inl rfl) (le_of_eq hf1)
  | ok totalBytes =>
    try dsimp only
    split
    · exact handlerOK_pushResult op _ _ _ _ rfl (le_of_eq hf1)
    · rcases hB : fetchMany s1 (totalBytes + 1) with ⟨r2, s2⟩
      have hf2 : s2.fee = s1.fee := by
        have hx := (fetchMany_inv s1 (totalBytes + 1)).1
        rw [pair_snd hB] at hx
        exact hx
      cases r2 with
      | error e => exact handlerOK_trapWith _ _ _ _ _ (Or.inl rfl) (by omega)
      | ok bytes => exact handlerOK_pushResult op _ _ _ _ rfl (by omega)

theorem caseDiv_OK (op : OpCode) (s : MachineState) (hfac : op.gasFactor ≤ 2)
    (hs : MInv s) : handlerOK op.Name s (caseDiv op s) := by
  unfold caseDiv
  rcases hA : PopSignedBigInt op s with ⟨r, s1⟩
  have h1 := PopSignedBigInt_inv op s hfac hs
  rw [pair_snd hA] at h1
  try dsimp only
  rcases hB : PopSignedBigInt op s1 with ⟨l, s2⟩
  have h2 := PopSignedBigInt_inv op s1 hfac h1.2
  rw [pair_snd hB] at h2
  try dsimp only
  have hle : s2.fee ≤ s.fee := le_trans h2.1 h1.1
  cases r with
  | error e =>
    cases l <;> exact handlerOK_trapWith op.Name op.Name e s s2 (Or.inl rfl) hle
  | ok rv =>
    cases l with
    | error e => exact handlerOK_trapWith op.Name op.Name e s s2 (Or.inl rfl) hle
    | ok lv =>
      try dsimp only
      split
      · exact handlerOK_trapWith op.Name op.Name msgDivZero s s2 (Or.inl rfl) hle
      · exact handlerOK_pushResult op op.Name _ s s2 rfl hle

theorem handlerOK_mono (name : String) {s u : MachineState} {res : StepResult}
    (h : handlerOK name u res) (hfee : u.fee ≤ s.fee) : handlerOK name s res :=
  ⟨le_trans h.1 hfee, h.2⟩

theorem stackPop_ok_fee (s : MachineState) {b : Bytes} {t : MachineState}
    (h : stackPop s = .ok (b, t)) : t.fee = s.fee := by
  cases hcs : s.evalStack with
  | nil => rw [stackPop_nil s hcs] at h; cases h
  | cons x xs =>
    rw [stackPop_cons s x xs hcs] at h
    simp only [Except.ok.injEq, Prod.mk.injEq] at h
    rw [← h.2]

theorem stackPopIndexAt_ok_fee (s : MachineState) (i : Int) {b : Bytes} {t : MachineState}
    (h : stackPopIndexAt s i = .ok (b, t)) : t.fee = s.fee := by
  unfold stackPopIndexAt at h
  split at h
  · simp only [Except.ok.injEq, Prod.mk.injEq] at h
    rw [← h.2]
  · cases h

theorem loadArgs_inv (op : OpCode) (n : Nat) (vars : Nat → Bytes) (s : MachineState)
    (hfac : op.gasFactor ≤ 2) (hs : MInv s) :
    ((loadArgs op n vars s).2).fee ≤ s.fee ∧ MInv ((loadArgs op n vars s).2) := by
  induction n generalizing vars s with
  | zero => exact ⟨le_refl _, hs⟩
  | succ n ih =>
    unfold loadArgs
    rcases hp : PopBytes op s with ⟨r, s1⟩
    have h1 := PopBytes_inv op s hfac hs
    rw [pair_snd hp] at h1
    cases r with
    | error e => exact h1
    | ok v =>
      try dsimp only
      have h2 := ih (fun k => if k = n then v else vars k) s1 h1.2
      exact ⟨le_trans h2.1 h1.1, h2.2⟩

theorem callDataLoop_OK (op : OpCode) (td : Bytes) (s : MachineState) :
    handlerOK op.Name s (callDataLoop op td s) := by
  generalize hL : td.length = L
  induction L using Nat.strong_induction_on generalizing td s with
  | _ L ih =>
    unfold callDataLoop
    cases td with
    | nil => exact handlerOK_cont op.Name s s (le_refl _)
    | cons l rest =>
      try dsimp only
      split
      · exact handlerOK_trapWith op.Name op.Name msgIndexOOBCap s s (Or.inl rfl) (le_refl _)
      · rcases hd : doPush s (rest.take l) with ⟨e, s1⟩
        have hfe : s1.fee = s.fee := by
          have hx := doPush_fee s (rest.take l)
          rw [pair_snd hd] at hx
          exact hx
        cases e with
        | some e0 => exact handlerOK_trapWith op.Name op.Name e0 s s1 (Or.inl rfl) (le_of_eq hfe)
        | none =>
          try dsimp only
          have hlen : (rest.drop l).length < L := by
            rw [← hL]
            simp only [List.length_drop, List.length_cons]
            omega
          exact handlerOK_mono op.Name
            (ih (rest.drop l).length hlen (rest.drop l) s1 rfl) (le_of_eq hfe)

theorem casePushBool_OK (op : OpCode) (s : MachineState) :
    handlerOK op.Name s (casePushBool op s) := by
  unfold casePushBool
  rcases hA : fetch s with ⟨r, s1⟩
  have hf1 : s1.fee = s.fee := by
    have hx := (fetch_inv s).1
    rw [pair_snd hA] at hx
    exact hx
  cases r with
  | error e => exact handlerOK_trapWith op.Name op.Name e s s1 (Or.inl rfl) (le_of_eq hf1)
  | ok boolValue =>
    try dsimp only
    split
    · exact handlerOK_trapWith op.Name op.Name _ s s1 (Or.inl rfl) (le_of_eq hf1)
    · exact handlerOK_pushResult op op.Name _ s s1 rfl (le_of_eq hf1)

theorem casePushChar_OK (op : OpCode) (s : MachineState) :
    handlerOK op.Name s (casePushChar op s) := by
  unfold casePushChar
  rcases hA : fetch s with ⟨r, s1⟩
  have hf1 : s1.fee = s.fee := by
    have hx := (fetch_inv s).1
    rw [pair_snd hA] at hx
    exact hx
  cases r with
  | error e => exact handlerOK_trapWith op.Name op.Name e s s1 (Or.inl rfl) (le_of_eq hf1)
  | ok charCode =>
    try dsimp only
    split
    · exact handlerOK_trapWith op.Name op.Name _ s s1 (Or.inl rfl) (le_of_eq hf1)
    · exact handlerOK_pushResult op op.Name _ s s1 rfl (le_of_eq hf1)

theorem casePushStr_OK (op : OpCode) (s : MachineState) :
    handlerOK op.Name s (casePushStr op s) := by
  unfold casePushStr
  rcases hA : fetch s with ⟨r, s1⟩
  have hf1 : s1.fee = s.fee := by
    have hx := (fetch_inv s).1
    rw [pair_snd hA] at hx
    exact hx
  cases r with
  | error e => exact handlerOK_trapWith op.Name op.Name e s s1 (Or.inl rfl) (le_of_eq hf1)
  | ok length =>
    try dsimp only
    rcases hB : fetchMany s1 length with ⟨r2, s2⟩
    have hf2 : s2.fee = s1.fee := by
      have hx := (fetchMany_inv s1 length).1
      rw [pair_snd hB] at hx
      exact hx
    have hle : s2.fee ≤ s.fee := by omega
    cases r2 with
    | error e => exact handlerOK_trapWith op.Name op.Name e s s2 (Or.inl rfl) hle
    | ok bytes =>
      try dsimp only
      cases bytes.find? (fun c => decide (c > 127)) with
      | some c => exact handlerOK_trapWith op.Name op.Name _ s s2 (Or.inl rfl) hle
      | none => exact handlerOK_pushResult op op.Name _ s s2 rfl hle

theorem casePush_OK (op : OpCode) (s : MachineState) :
    handlerOK op.Name s (casePush op s) := by
  unfold casePush
  rcases hA : fetch s with ⟨r, s1⟩
  have hf1 : s1.fee = s.fee := by
    have hx := (fetch_inv s).1
    rw [pair_snd hA] at hx
    exact hx
  cases r with
  | error e => exact handlerOK_trapWith op.Name op.Name e s s1 (Or.inl rfl) (le_of_eq hf1)
  | ok length =>
    try dsimp only
    rcases hB : fetchMany s1 length with ⟨r2, s2⟩
    have hf2 : s2.fee = s1.fee := by
      have hx := (fetchMany_inv s1 length).1
      rw [pair_snd hB] at hx
      exact hx
    have hle : s2.fee ≤ s.fee := by omega
    cases r2 with
    | error e => exact handlerOK_trapWith op.Name op.Name e s s2 (Or.inl rfl) hle
    | ok bytes => exact handlerOK_pushResult op op.Name _ s s2 rfl hle

theorem caseNoOp_OK (op : OpCode) (s : MachineState) :
    handlerOK op.Name s (caseNoOp op s) := by
  unfold caseNoOp
  rcases hA : fetch s with ⟨r, s1⟩
  have hf1 : s1.fee = s.fee := by
    have hx := (fetch_inv s).1
    rw [pair_snd hA] at hx
    exact hx
  cases r with
  | error e => exact handlerOK_trapWith op.Name op.Name e s s1 (Or.inl rfl) (le_of_eq hf1)
  | ok b => exact handlerOK_cont op.Name s s1 (le_of_eq hf1)

theorem caseJmp_OK (op : OpCode) (s : MachineState) :
    handlerOK op.Name s (caseJmp op s) := by
  unfold caseJmp
  rcases hA : fetchMany s 2 with ⟨r, s1⟩
  have hf1 : s1.fee = s.fee := by
    have hx := (fetchMany_inv s 2).1
    rw [pair_snd hA] at hx
    exact hx
  cases r with
  | error e => exact handlerOK_trapWith op.Name op.Name e s s1 (Or.inl rfl) (le_of_eq hf1)
  | ok b => exact handlerOK_cont op.Name s _ (le_of_eq hf1)

theorem caseAddress_OK (ctx : Context) (op : OpCode) (s : MachineState) :
    handlerOK op.Name s (caseAddress ctx op s) :=
  handlerOK_pushResult op op.Name _ s s rfl (le_refl _)

theorem caseIssuer_OK (ctx : Context) (op : OpCode) (s : MachineState) :
    handlerOK op.Name s (caseIssuer ctx op s) :=
  handlerOK_pushResult op op.Name _ s s rfl (le_refl _)

theorem caseBalance_OK (ctx : Context) (op : OpCode) (s : MachineState) :
    handlerOK op.Name s (caseBalance ctx op s) :=
  handlerOK_pushResult op op.Name _ s s rfl (le_refl _)

theorem caseCaller_OK (ctx : Context) (op : OpCode) (s : MachineState) :
    handlerOK op.Name s (caseCaller ctx op s) :=
  handlerOK_pushResult op op.Name _ s s rfl (le_refl _)

theorem caseCallVal_OK (ctx : Context) (op : OpCode) (s : MachineState) :
    handlerOK op.Name s (caseCallVal ctx op s) :=
  handlerOK_pushResult op op.Name _ s s rfl (le_refl _)

theorem caseNewMap_OK (pr : Prims) (op : OpCode) (s : MachineState) :
    handlerOK op.Name s (caseNewMap pr op s) :=
  handlerOK_pushResult op op.Name _ s s rfl (le_refl _)

theorem caseCallData_OK (ctx : Context) (op : OpCode) (s : MachineState) :
    handlerOK op.Name s (caseCallData ctx op s) :=
  callDataLoop_OK op ctx.GetTransactionData s

theorem caseMod_OK (op : OpCode) (s : MachineState) (hfac : op.gasFactor ≤ 2)
    (hs : MInv s) : handlerOK op.Name s (caseMod op s) := by
  unfold caseMod
  rcases hA : PopSignedBigInt op s with ⟨r, s1⟩
  have h1 := PopSignedBigInt_inv op s hfac hs
  rw [pair_snd hA] at h1
  try dsimp only
  rcases hB : PopSignedBigInt op s1 with ⟨l, s2⟩
  have h2 := PopSignedBigInt_inv op s1 hfac h1.2
  rw [pair_snd hB] at h2
  try dsimp only
  have hle : s2.fee ≤ s.fee := le_trans h2.1 h1.1
  cases r with
  | error e =>
    cases l <;> exact handlerOK_trapWith op.Name op.Name e s s2 (Or.inl rfl) hle
  | ok rv =>
    cases l with
    | error e => exact handlerOK_trapWith op.Name op.Name e s s2 (Or.inl rfl) hle
    | ok lv =>
      try dsimp only
      split
      · exact handlerOK_trapWith op.Name op.Name msgDivZero s s2 (Or.inl rfl) hle
      · exact handlerOK_pushResult op op.Name _ s s2 rfl hle

theorem caseExp_OK (op : OpCode) (s : MachineState) (hfac : op.gasFactor ≤ 2)
    (hs : MInv s) : handlerOK op.Name s (caseExp op s) := by
  unfold caseExp
  rcases hA : PopSignedBigInt op s with ⟨l, s1⟩
  have h1 := PopSignedBigInt_inv op s hfac hs
  rw [pair_snd hA] at h1
  try dsimp only
  rcases hB : PopSignedBigInt op s1 with ⟨r, s2⟩
  have h2 := PopSignedBigInt_inv op s1 hfac h1.2
  rw [pair_snd hB] at h2
  try dsimp only
  have hle : s2.fee ≤ s.fee := le_trans h2.1 h1.1
  cases l with
  | error e =>
    cases r <;> exact handlerOK_trapWith op.Name op.Name e s s2 (Or.inl rfl) hle
  | ok lv =>
    cases r with
    | error e => exact handlerOK_trapWith op.Name op.Name e s s2 (Or.inl rfl) hle
    | ok rv =>
      try dsimp only
      split
      · exact handlerOK_trapWith op.Name op.Name msgNegExp s s2 (Or.inl rfl) hle
      · split
        · exact handlerOK_trapWith op.Name op.Name msgOutOfGas s s2 (Or.inl rfl) hle
        · exact handlerOK_pushResult op op.Name _ s s2 rfl hle

theorem evaluateBigIntOperation_OK (op : OpCode) (exec : Int → Int → Int) (s : MachineState)
    (hfac : op.gasFactor ≤ 2) (hs : MInv s) :
    handlerOK op.Name s (evaluateBigIntOperation op exec s) := by
  unfold evaluateBigIntOperation
  rcases hA : PopSignedBigInt op s with ⟨r, s1⟩
  have h1 := PopSignedBigInt_inv op s hfac hs
  rw [pair_snd hA] at h1
  try dsimp only
  rcases hB : PopSignedBigInt op s1 with ⟨l, s2⟩
  have h2 := PopSignedBigInt_inv op s1 hfac h1.2
  rw [pair_snd hB] at h2
  try dsimp only
  have hle : s2.fee ≤ s.fee := le_trans h2.1 h1.1
  cases r with
  | error e =>
    cases l <;> exact handlerOK_trapWith op.Name op.Name e s s2 (Or.inl rfl) hle
  | ok rv =>
    cases l with
    | error e => exact handlerOK_trapWith op.Name op.Name e s s2 (Or.inl rfl) hle
    | ok lv => exact handlerOK_pushResult op op.Name _ s s2 rfl hle

theorem caseEq_OK (op : OpCode) (s : MachineState) (hfac : op.gasFactor ≤ 2)
    (hs : MInv s) : handlerOK op.Name s (caseEq op s) := by
  unfold caseEq
  rcases hA : PopBytes op s with ⟨r, s1⟩
  have h1 := PopBytes_inv op s hfac hs
  rw [pair_snd hA] at h1
  try dsimp only
  rcases hB : PopBytes op s1 with ⟨l, s2⟩
  have h2 := PopBytes_inv op s1 hfac h1.2
  rw [pair_snd hB] at h2
  try dsimp only
  have hle : s2.fee ≤ s.fee := le_trans h2.1 h1.1
  cases r with
  | error e =>
    cases l <;> exact handlerOK_trapWith op.Name op.Name e s s2 (Or.inl rfl) hle
  | ok rv =>
    cases l with
    | error e => exact handlerOK_trapWith op.Name op.Name e s s2 (Or.inl rfl) hle
    | ok lv => exact handlerOK_pushResult op op.Name _ s s2 rfl hle

theorem caseNotEq_OK (op : OpCode) (s : MachineState) (hfac : op.gasFactor ≤ 2)
    (hs : MInv s) : handlerOK op.Name s (caseNotEq op s) := by
  unfold caseNotEq
  rcases hA : PopBytes op s with ⟨r, s1⟩
  have h1 := PopBytes_inv op s hfac hs
  rw [pair_snd hA] at h1
  try dsimp only
  rcases hB : PopBytes op s1 with ⟨l, s2⟩
  have h2 := PopBytes_inv op s1 hfac h1.2
  rw [pair_snd hB] at h2
  try dsimp only
  have hle : s2.fee ≤ s.fee := le_trans h2.1 h1.1
  cases r with
  | error e =>
    cases l <;> exact handlerOK_trapWith op.Name op.Name e s s2 (Or.inl rfl) hle
  | ok rv =>
    cases l with
    | error e => exact handlerOK_trapWith op.Name op.Name e s s2 (Or.inl rfl) hle
    | ok lv => exact handlerOK_pushResult op op.Name _ s s2 rfl hle

theorem evaluateRelationalComp_OK (op : OpCode) (expectedResult : List Int)
    (s : MachineState) (hfac : op.gasFactor ≤ 2) (hs : MInv s) :
    handlerOK op.Name s (evaluateRelationalComp op expectedResult s) := by
  unfold evaluateRelationalComp
  rcases hA : PopBytes op s with ⟨r, s1⟩
  have h1 := PopBytes_inv op s hfac hs
  rw [pair_snd hA] at h1
  try dsimp only
  rcases hB : PopBytes op s1 with ⟨l, s2⟩
  have h2 := PopBytes_inv op s1 hfac h1.2
  rw [pair_snd hB] at h2
  try dsimp only
  have hle : s2.fee ≤ s.fee := le_trans h2.1 h1.1
  cases r with
  | error e =>
    cases l <;> exact handlerOK_trapWith op.Name op.Name e s s2 (Or.inl rfl) hle
  | ok right =>
    cases l with
    | error e => exact handlerOK_trapWith op.Name op.Name e s s2 (Or.inl rfl) hle
    | ok left =>
      try dsimp only
      split
      · exact handlerOK_pushResult op op.Name _ s s2 rfl hle
      · cases hcr : SignedBigIntConversion right with
        | error e =>
          cases SignedBigIntConversion left <;>
            exact handlerOK_trapWith op.Name op.Name e s s2 (Or.inl rfl) hle
        | ok rightInt =>
          cases SignedBigIntConversion left with
          | error e => exact handlerOK_trapWith op.Name op.Name e s s2 (Or.inl rfl) hle
          | ok leftInt => exact handlerOK_pushResult op op.Name _ s s2 rfl hle

theorem caseShiftL_OK (op : OpCode) (s : MachineState) (hfac : op.gasFactor ≤ 2)
    (hs : MInv s) : handlerOK op.Name s (caseShiftL op s) := by
  unfold caseShiftL
  rcases hA : PopSignedBigInt op s with ⟨sh, s1⟩
  have h1 := PopSignedBigInt_inv op s hfac hs
  rw [pair_snd hA] at h1
  try dsimp only
  rcases hB : PopSignedBigInt op s1 with ⟨t, s2⟩
  have h2 := PopSignedBigInt_inv op s1 hfac h1.2
  rw [pair_snd hB] at h2
  try dsimp only
  have hle : s2.fee ≤ s.fee := le_trans h2.1 h1.1
  cases sh with
  | error e =>
    cases t <;> exact handlerOK_trapWith op.Name op.Name e s s2 (Or.inl rfl) hle
  | ok shiftsBigInt =>
    cases t with
    | error e => exact handlerOK_trapWith op.Name op.Name e s s2 (Or.inl rfl) hle
    | ok tos =>
      try dsimp only
      cases BigIntToUInt shiftsBigInt with
      | error e => exact handlerOK_trapWith op.Name op.Name e s s2 (Or.inl rfl) hle
      | ok nrOfShifts => exact handlerOK_pushResult op op.Name _ s s2 rfl hle

theorem caseShiftR_OK (op : OpCode) (s : MachineState) (hfac : op.gasFactor ≤ 2)
    (hs : MInv s) : handlerOK op.Name s (caseShiftR op s) := by
  unfold caseShiftR
  rcases hA : PopSignedBigInt op s with ⟨sh, s1⟩
  have h1 := PopSignedBigInt_inv op s hfac hs
  rw [pair_snd hA] at h1
  try dsimp only
  rcases hB : PopSignedBigInt op s1 with ⟨t, s2⟩
  have h2 := PopSignedBigInt_inv op s1 hfac h1.2
  rw [pair_snd hB] at h2
  try dsimp only
  have hle : s2.fee ≤ s.fee := le_trans h2.1 h1.1
  cases sh with
  | error e =>
    cases t <;> exact handlerOK_trapWith op.Name op.Name e s s2 (Or.inl rfl) hle
  | ok shiftsBigInt =>
    cases t with
    | error e => exact handlerOK_trapWith op.Name op.Name e s s2 (Or.inl rfl) hle
    | ok tos =>
      try dsimp only
      cases BigIntToUInt shiftsBigInt with
      | error e => exact handlerOK_trapWith op.Name op.Name e s s2 (Or.inl rfl) hle
      | ok nrOfShifts => exact handlerOK_pushResult op op.Name _ s s2 rfl hle

theorem casePop_OK (op : OpCode) (s : MachineState) (hfac : op.gasFactor ≤ 2)
    (hs : MInv s) : handlerOK op.Name s (casePop op s) := by
  unfold casePop
  rcases hA : PopBytes op s with ⟨r, s1⟩
  have h1 := PopBytes_inv op s hfac hs
  rw [pair_snd hA] at h1
  cases r with
  | error e => exact handlerOK_trapWith op.Name op.Name e s s1 (Or.inl rfl) h1.1
  | ok v => exact handlerOK_cont op.Name s s1 h1.1

theorem caseBitwiseNot_OK (op : OpCode) (s : MachineState) (hfac : op.gasFactor ≤ 2)
    (hs : MInv s) : handlerOK op.Name s (caseBitwiseNot op s) := by
  unfold caseBitwiseNot
  rcases hA : PopSignedBigInt op s with ⟨r, s1⟩
  have h1 := PopSignedBigInt_inv op s hfac hs
  rw [pair_snd hA] at h1
  cases r with
  | error e => exact handlerOK_trapWith op.Name op.Name e s s1 (Or.inl rfl) h1.1
  | ok v => exact handlerOK_pushResult op op.Name _ s s1 rfl h1.1

theorem caseSize_OK (op : OpCode) (s : MachineState) (hfac : op.gasFactor ≤ 2)
    (hs : MInv s) : handlerOK op.Name s (caseSize op s) := by
  unfold caseSize
  rcases hA : PopBytes op s with ⟨r, s1⟩
  have h1 := PopBytes_inv op s hfac hs
  rw [pair_snd hA] at h1
  cases r with
  | error e => exact handlerOK_trapWith op.Name op.Name e s s1 (Or.inl rfl) h1.1
  | ok element => exact handlerOK_pushResult op op.Name _ s s1 rfl h1.1

theorem caseSHA3_OK (pr : Prims) (op : OpCode) (s : MachineState) (hfac : op.gasFactor ≤ 2)
    (hs : MInv s) : handlerOK op.Name s (caseSHA3 pr op s) := by
  unfold caseSHA3
  rcases hA : PopBytes op s with ⟨r, s1⟩
  have h1 := PopBytes_inv op s hfac hs
  rw [pair_snd hA] at h1
  cases r with
  | error e => exact handlerOK_trapWith op.Name op.Name e s s1 (Or.inl rfl) h1.1
  | ok right => exact handlerOK_pushResult op op.Name _ s s1 rfl h1.1

theorem caseDup_OK (op : OpCode) (s : MachineState) (hfac : op.gasFactor ≤ 2)
    (hs : MInv s) : handlerOK op.Name s (caseDup op s) := by
  unfold caseDup
  rcases hA : PopBytes op s with ⟨r, s1⟩
  have h1 := PopBytes_inv op s hfac hs
  rw [pair_snd hA] at h1
  cases r with
  | error e => exact handlerOK_trapWith op.Name op.Name e s s1 (Or.inl rfl) h1.1
  | ok tos =>
    try dsimp only
    rcases hB : doPush s1 tos with ⟨e1, s2⟩
    have hf2 : s2.fee = s1.fee := by
      have hx := doPush_fee s1 tos
      rw [pair_snd hB] at hx
      exact hx
    cases e1 with
    | some e => exact handlerOK_trapWith op.Name op.Name e s s2 (Or.inl rfl) (by omega)
    | none =>
      try dsimp only
      rcases hC : doPush s2 tos with ⟨e2, s3⟩
      have hf3 : s3.fee = s2.fee := by
        have hx := doPush_fee s2 tos
        rw [pair_snd hC] at hx
        exact hx
      cases e2 with
      | some e => exact handlerOK_trapWith op.Name op.Name e s s3 (Or.inl rfl) (by omega)
      | none => exact handlerOK_cont op.Name s s3 (by omega)

theorem caseNeg_OK (op : OpCode) (s : MachineState) (hfac : op.gasFactor ≤ 2)
    (hs : MInv s) : handlerOK op.Name s (caseNeg op s) := by
  unfold caseNeg
  rcases hA : PopBytes op s with ⟨r, s1⟩
  have h1 := PopBytes_inv op s hfac hs
  rw [pair_snd hA] at h1
  cases r with
  | error e => exact handlerOK_trapWith op.Name op.Name e s s1 (Or.inl rfl) h1.1
  | ok tos =>
    try dsimp only
    cases tos with
    | nil => exact handlerOK_crashed op.Name s s1 h1.1
    | cons b rest =>
      try dsimp only
      split
      · exact handlerOK_pushResult op op.Name _ s s1 rfl h1.1
      · split
        · exact handlerOK_pushResult op op.Name _ s s1 rfl h1.1
        · exact handlerOK_trapWith op.Name op.Name _ s s1 (Or.inl rfl) h1.1

theorem caseJmpTrue_OK (op : OpCode) (s : MachineState) (hfac : op.gasFactor ≤ 2)
    (hs : MInv s) : handlerOK op.Name s (caseJmpTrue op s) := by
  unfold caseJmpTrue
  rcases hA : fetchMany s 2 with ⟨a, s1⟩
  have hf1 : s1.fee = s.fee := by
    have hx := (fetchMany_inv s 2).1
    rw [pair_snd hA] at hx
    exact hx
  have hi1 : MInv s1 := by
    have hx := fetchMany_MInv s 2 hs
    rw [pair_snd hA] at hx
    exact hx
  try dsimp only
  rcases hB : PopBytes op s1 with ⟨r, s2⟩
  have h2 := PopBytes_inv op s1 hfac hi1
  rw [pair_snd hB] at h2
  try dsimp only
  have hle : s2.fee ≤ s.fee := by omega
  cases a with
  | error e =>
    cases r <;> exact handlerOK_trapWith op.Name op.Name e s s2 (Or.inl rfl) hle
  | ok nextInstruction =>
    cases r with
    | error e => exact handlerOK_trapWith op.Name op.Name e s s2 (Or.inl rfl) hle
    | ok right =>
      try dsimp only
      split
      · exact handlerOK_cont op.Name s _ hle
      · exact handlerOK_cont op.Name s s2 hle

theorem caseJmpFalse_OK (op : OpCode) (s : MachineState) (hfac : op.gasFactor ≤ 2)
    (hs : MInv s) : handlerOK op.Name s (caseJmpFalse op s) := by
  unfold caseJmpFalse
  rcases hA : fetchMany s 2 with ⟨a, s1⟩
  have hf1 : s1.fee = s.fee := by
    have hx := (fetchMany_inv s 2).1
    rw [pair_snd hA] at hx
    exact hx
  have hi1 : MInv s1 := by
    have hx := fetchMany_MInv s 2 hs
    rw [pair_snd hA] at hx
    exact hx
  try dsimp only
  rcases hB : PopBytes op s1 with ⟨r, s2⟩
  have h2 := PopBytes_inv op s1 hfac hi1
  rw [pair_snd hB] at h2
  try dsimp only
  have hle : s2.fee ≤ s.fee := by omega
  cases a with
  | error e =>
    cases r <;> exact handlerOK_trapWith op.Name op.Name e s s2 (Or.inl rfl) hle
  | ok nextInstruction =>
    cases r with
    | error e => exact handlerOK_trapWith op.Name op.Name e s s2 (Or.inl rfl) hle
    | ok right =>
      try dsimp only
      split
      · exact handlerOK_cont op.Name s s2 hle
      · exact handlerOK_cont op.Name s _ hle

theorem caseStoreSt_OK (ctx : Context) (op : OpCode) (s : MachineState)
    (hfac : op.gasFactor ≤ 2) (hs : MInv s) :
    handlerOK op.Name s (caseStoreSt ctx op s) := by
  unfold caseStoreSt
  rcases hA : fetch s with ⟨a, s1⟩
  have hf1 : s1.fee = s.fee := by
    have hx := (fetch_inv s).1
    rw [pair_snd hA] at hx
    exact hx
  have hi1 : MInv s1 := by
    have hx := fetch_MInv s hs
    rw [pair_snd hA] at hx
    exact hx
  try dsimp only
  rcases hB : PopBytes op s1 with ⟨r, s2⟩
  have h2 := PopBytes_inv op s1 hfac hi1
  rw [pair_snd hB] at h2
  try dsimp only
  have hle : s2.fee ≤ s.fee := by omega
  cases a with
  | error e =>
    cases r <;> exact handlerOK_trapWith op.Name op.Name e s s2 (Or.inl rfl) hle
  | ok index =>
    cases r with
    | error e => exact handlerOK_trapWith op.Name op.Name e s s2 (Or.inl rfl) hle
    | ok value =>
      try dsimp only
      cases ctx.SetContractVariable index value with
      | error e => exact handlerOK_trapWith op.Name op.Name e s s2 (Or.inl rfl) hle
      | ok u => exact handlerOK_cont op.Name s s2 hle

theorem caseStoreLoc_OK (op : OpCode) (s : MachineState) (hfac : op.gasFactor ≤ 2)
    (hs : MInv s) : handlerOK op.Name s (caseStoreLoc op s) := by
  unfold caseStoreLoc
  rcases hA : fetch s with ⟨a, s1⟩
  have hf1 : s1.fee = s.fee := by
    have hx := (fetch_inv s).1
    rw [pair_snd hA] at hx
    exact hx
  have hi1 : MInv s1 := by
    have hx := fetch_MInv s hs
    rw [pair_snd hA] at hx
    exact hx
  try dsimp only
  rcases hB : PopBytes op s1 with ⟨r, s2⟩
  have h2 := PopBytes_inv op s1 hfac hi1
  rw [pair_snd hB] at h2
  try dsimp only
  have hle : s2.fee ≤ s.fee := by omega
  cases a with
  | error e =>
    cases r <;> exact handlerOK_trapWith op.Name op.Name e s s2 (Or.inl rfl) hle
  | ok address =>
    cases r with
    | error e => exact handlerOK_trapWith op.Name op.Name e s s2 (Or.inl rfl) hle
    | ok right =>
      try dsimp only
      cases s2.callStack with
      | nil => exact handlerOK_trapWith op.Name op.Name msgPeekEmptyCallStack s s2 (Or.inl rfl) hle
      | cons f rest => exact handlerOK_cont op.Name s _ hle

theorem caseLoadSt_OK (ctx : Context) (op : OpCode) (s : MachineState) :
    handlerOK op.Name s (caseLoadSt ctx op s) := by
  unfold caseLoadSt
  rcases hA : fetch s with ⟨a, s1⟩
  have hf1 : s1.fee = s.fee := by
    have hx := (fetch_inv s).1
    rw [pair_snd hA] at hx
    exact hx
  cases a with
  | error e => exact handlerOK_trapWith op.Name op.Name e s s1 (Or.inl rfl) (le_of_eq hf1)
  | ok index =>
    try dsimp only
    cases ctx.GetContractVariable index with
    | error e => exact handlerOK_trapWith op.Name op.Name e s s1 (Or.inl rfl) (le_of_eq hf1)
    | ok value => exact handlerOK_pushResult op op.Name _ s s1 rfl (le_of_eq hf1)

theorem caseLoadLoc_OK (op : OpCode) (s : MachineState) :
    handlerOK op.Name s (caseLoadLoc op s) := by
  unfold caseLoadLoc
  rcases hA : fetch s with ⟨a, s1⟩
  have hf1 : s1.fee = s.fee := by
    have hx := (fetch_inv s).1
    rw [pair_snd hA] at hx
    exact hx
  cases a with
  | error e => exact handlerOK_trapWith op.Name op.Name e s s1 (Or.inl rfl) (le_of_eq hf1)
  | ok address =>
    try dsimp only
    cases s1.callStack with
    | nil =>
      exact handlerOK_trapWith op.Name op.Name msgPeekEmptyCallStack s s1 (Or.inl rfl)
        (le_of_eq hf1)
    | cons f rest => exact handlerOK_pushResult op op.Name _ s s1 rfl (le_of_eq hf1)

theorem caseSwap_OK (op : OpCode) (s : MachineState) :
    handlerOK op.Name s (caseSwap op s) := by
  unfold caseSwap
  cases hA : stackPop s with
  | error e => exact handlerOK_trapWith op.Name op.Name e s s (Or.inl rfl) (le_refl _)
  | ok p1 =>
    obtain ⟨last, s1⟩ := p1
    have hf1 : s1.fee = s.fee := stackPop_ok_fee s hA
    try dsimp only
    cases hB : stackPop s1 with
    | error e => exact handlerOK_trapWith op.Name op.Name e s s1 (Or.inl rfl) (le_of_eq hf1)
    | ok p2 =>
      obtain ⟨secondLast, s2⟩ := p2
      have hf2 : s2.fee = s1.fee := stackPop_ok_fee s1 hB
      try dsimp only
      rcases hC : doPush s2 last with ⟨e1, t1⟩
      have hf3 : t1.fee = s2.fee := by
        have hx := doPush_fee s2 last
        rw [pair_snd hC] at hx
        exact hx
      try dsimp only
      rcases hD : doPush t1 secondLast with ⟨e2, t2⟩
      have hf4 : t2.fee = t1.fee := by
        have hx := doPush_fee t1 secondLast
        rw [pair_snd hD] at hx
        exact hx
      have hle : t2.fee ≤ s.fee := by omega
      cases e1 with
      | some e => cases e2 <;> exact handlerOK_trapWith op.Name op.Name e s t2 (Or.inl rfl) hle
      | none =>
        cases e2 with
        | some e => exact handlerOK_trapWith op.Name op.Name e s t2 (Or.inl rfl) hle
        | none => exact handlerOK_cont op.Name s t2 hle

theorem caseRoll_OK (op : OpCode) (s : MachineState) :
    handlerOK op.Name s (caseRoll op s) := by
  unfold caseRoll
  rcases hA : fetch s with ⟨a, s1⟩
  have hf1 : s1.fee = s.fee := by
    have hx := (fetch_inv s).1
    rw [pair_snd hA] at hx
    exact hx
  cases a with
  | error e => exact handlerOK_trapWith op.Name op.Name e s s1 (Or.inl rfl) (le_of_eq hf1)
  | ok arg =>
    try dsimp only
    split
    · exact handlerOK_cont op.Name s s1 (le_of_eq hf1)
    · split
      · exact handlerOK_trapWith op.Name op.Name msgIndexOutOfBounds s s1 (Or.inl rfl)
          (le_of_eq hf1)
      · cases hB : stackPopIndexAt s1 ((s1.evalStack.length : Int) - ((arg : Int) + 2)) with
        | error e => exact handlerOK_trapWith op.Name op.Name e s s1 (Or.inl rfl) (le_of_eq hf1)
        | ok p =>
          obtain ⟨newTos, s2⟩ := p
          have hf2 : s2.fee = s1.fee := stackPopIndexAt_ok_fee s1 _ hB
          try dsimp only
          rcases hC : doPush s2 newTos with ⟨e1, s3⟩
          have hf3 : s3.fee = s2.fee := by
            have hx := doPush_fee s2 newTos
            rw [pair_snd hC] at hx
            exact hx
          cases e1 with
          | some e => exact handlerOK_trapWith op.Name op.Name e s s3 (Or.inl rfl) (by omega)
          | none => exact handlerOK_cont op.Name s s3 (by omega)

theorem caseRet_OK (op : OpCode) (s : MachineState) :
    handlerOK op.Name s (caseRet op s) := by
  unfold caseRet
  cases hcs : s.callStack with
  | nil =>
    constructor
    · rw [StepResult.st, pushIgn_fee, pushIgn_fee]
    · intro t ht hp
      have heq : t = pushIgn (pushIgn s (wrapMsg op.Name msgPeekEmptyCallStack))
          (wrapMsg op.Name msgPeekEmptyCallStack) := by
        cases ht
        rfl
      subst heq
      have hstack := pushIgn_pushErr_false _ _ hp
      exact ⟨_, _, hstack, Or.inl (startsWithB_wrapMsg op.Name msgPeekEmptyCallStack)⟩
  | cons callstackTos rest =>
    try dsimp only
    split
    · exact handlerOK_trapWith op.Name op.Name msgRetMismatch s s (Or.inl rfl) (le_refl _)
    · exact handlerOK_cont op.Name s _ (le_refl _)

theorem caseCall_OK (op : OpCode) (s : MachineState) (hfac : op.gasFactor ≤ 2)
    (hs : MInv s) : handlerOK op.Name s (caseCall op s) := by
  unfold caseCall
  rcases hA : fetchMany s 2 with ⟨a1, s1⟩
  have hf1 : s1.fee = s.fee := by
    have hx := (fetchMany_inv s 2).1
    rw [pair_snd hA] at hx
    exact hx
  have hi1 : MInv s1 := by
    have hx := fetchMany_MInv s 2 hs
    rw [pair_snd hA] at hx
    exact hx
  try dsimp only
  rcases hB : fetch s1 with ⟨a2, s2⟩
  have hf2 : s2.fee = s1.fee := by
    have hx := (fetch_inv s1).1
    rw [pair_snd hB] at hx
    exact hx
  have hi2 : MInv s2 := by
    have hx := fetch_MInv s1 hi1
    rw [pair_snd hB] at hx
    exact hx
  try dsimp only
  rcases hC : fetch s2 with ⟨a3, s3⟩
  have hf3 : s3.fee = s2.fee := by
    have hx := (fetch_inv s2).1
    rw [pair_snd hC] at hx
    exact hx
  have hi3 : MInv s3 := by
    have hx := fetch_MInv s2 hi2
    rw [pair_snd hC] at hx
    exact hx
  try dsimp only
  have hle3 : s3.fee ≤ s.fee := by omega
  cases a1 with
  | error e =>
    cases a2 <;> cases a3 <;>
      exact handlerOK_trapWith op.Name op.Name e s s3 (Or.inl rfl) hle3
  | ok returnAddressBytes =>
    cases a2 with
    | error e =>
      cases a3 <;> exact handlerOK_trapWith op.Name op.Name e s s3 (Or.inl rfl) hle3
    | ok argsToLoad =>
      cases a3 with
      | error e => exact handlerOK_trapWith op.Name op.Name e s s3 (Or.inl rfl) hle3
      | ok nrOfReturnTypesByte =>
        try dsimp only
        split
        · exact handlerOK_trapWith op.Name op.Name msgRetAddrOOB s s3 (Or.inl rfl) hle3
        · split
          · exact handlerOK_trapWith op.Name op.Name msgNretNegative s s3 (Or.inl rfl) hle3
          · rcases hD : loadArgs op argsToLoad (fun _ => []) s3 with ⟨r, s4⟩
            have h4 := loadArgs_inv op argsToLoad (fun _ => []) s3 hfac hi3
            rw [pair_snd hD] at h4
            have hle4 : s4.fee ≤ s.fee := le_trans h4.1 hle3
            cases r with
            | error e => exact handlerOK_trapWith op.Name op.Name e s s4 (Or.inl rfl) hle4
            | ok vars => exact handlerOK_cont op.Name s _ hle4

theorem caseCallTrue_OK (op : OpCode) (s : MachineState) (hfac : op.gasFactor ≤ 2)
    (hs : MInv s) : handlerOK op.Name s (caseCallTrue op s) := by
  unfold caseCallTrue
  rcases hA : fetchMany s 2 with ⟨a1, s1⟩
  have hf1 : s1.fee = s.fee := by
    have hx := (fetchMany_inv s 2).1
    rw [pair_snd hA] at hx
    exact hx
  have hi1 : MInv s1 := by
    have hx := fetchMany_MInv s 2 hs
    rw [pair_snd hA] at hx
    exact hx
  try dsimp only
  rcases hB : fetch s1 with ⟨a2, s2⟩
  have hf2 : s2.fee = s1.fee := by
    have hx := (fetch_inv s1).1
    rw [pair_snd hB] at hx
    exact hx
  have hi2 : MInv s2 := by
    have hx := fetch_MInv s1 hi1
    rw [pair_snd hB] at hx
    exact hx
  try dsimp only
  rcases hC : fetch s2 with ⟨a3, s3⟩
  have hf3 : s3.fee = s2.fee := by
    have hx := (fetch_inv s2).1
    rw [pair_snd hC] at hx
    exact hx
  have hi3 : MInv s3 := by
    have hx := fetch_MInv s2 hi2
    rw [pair_snd hC] at hx
    exact hx
  try dsimp only
  rcases hD : PopBytes op s3 with ⟨rr, s4⟩
  have h4 := PopBytes_inv op s3 hfac hi3
  rw [pair_snd hD] at h4
  try dsimp only
  have hle4 : s4.fee ≤ s.fee := by omega
  cases a1 with
  | error e =>
    cases a2 <;> cases a3 <;> cases rr <;>
      exact handlerOK_trapWith op.Name op.Name e s s4 (Or.inl rfl) hle4
  | ok returnAddressBytes =>
    cases a2 with
    | error e =>
      cases a3 <;> cases rr <;>
        exact handlerOK_trapWith op.Name op.Name e s s4 (Or.inl rfl) hle4
    | ok argsToLoad =>
      cases a3 with
      | error e =>
        cases rr <;> exact handlerOK_trapWith op.Name op.Name e s s4 (Or.inl rfl) hle4
      | ok nrOfReturnTypesByte =>
        cases rr with
        | error e => exact handlerOK_trapWith op.Name op.Name e s s4 (Or.inl rfl) hle4
        | ok right =>
          try dsimp only
          split
          · split
            · exact handlerOK_trapWith op.Name op.Name msgRetAddrOOB s s4 (Or.inl rfl) hle4
            · split
              · exact handlerOK_trapWith op.Name op.Name msgNretNegative s s4 (Or.inl rfl) hle4
              · rcases hE : loadArgs op argsToLoad (fun _ => []) s4 with ⟨r, s5⟩
                have h5 := loadArgs_inv op argsToLoad (fun _ => []) s4 hfac h4.2
                rw [pair_snd hE] at h5
                have hle5 : s5.fee ≤ s.fee := le_trans h5.1 hle4
                cases r with
                | error e => exact handlerOK_trapWith op.Name op.Name e s s5 (Or.inl rfl) hle5
                | ok vars => exact handlerOK_cont op.Name s _ hle5
          · exact handlerOK_cont op.Name s s4 hle4

theorem caseCallExt_OK (op : OpCode) (s : MachineState) :
    handlerOK op.Name s (caseCallExt op s) := by
  unfold caseCallExt
  rcases hA : fetchMany s 32 with ⟨a1, s1⟩
  have hf1 : s1.fee = s.fee := by
    have hx := (fetchMany_inv s 32).1
    rw [pair_snd hA] at hx
    exact hx
  try dsimp only
  rcases hB : fetchMany s1 4 with ⟨a2, s2⟩
  have hf2 : s2.fee = s1.fee := by
    have hx := (fetchMany_inv s1 4).1
    rw [pair_snd hB] at hx
    exact hx
  try dsimp only
  rcases hC : fetch s2 with ⟨a3, s3⟩
  have hf3 : s3.fee = s2.fee := by
    have hx := (fetch_inv s2).1
    rw [pair_snd hC] at hx
    exact hx
  try dsimp only
  have hle : s3.fee ≤ s.fee := by omega
  cases a1 with
  | error e =>
    cases a2 <;> cases a3 <;>
      exact handlerOK_trapWith op.Name op.Name e s s3 (Or.inl rfl) hle
  | ok v1 =>
    cases a2 with
    | error e =>
      cases a3 <;> exact handlerOK_trapWith op.Name op.Name e s s3 (Or.inl rfl) hle
    | ok v2 =>
      cases a3 with
      | error e => exact handlerOK_trapWith op.Name op.Name e s s3 (Or.inl rfl) hle
      | ok v3 => exact handlerOK_cont op.Name s s3 hle

theorem caseHalt_OK (name : String) (s : MachineState) :
    handlerOK name s (caseHalt s) :=
  handlerOK_halt name s s (le_refl _)

theorem caseMapHasKey_OK (pr : Prims) (op : OpCode) (s : MachineState)
    (hfac : op.gasFactor ≤ 2) (hs : MInv s) :
    handlerOK op.Name s (caseMapHasKey pr op s) := by
  unfold caseMapHasKey
  rcases hA : PopBytes op s with ⟨r1, s1⟩
  have h1 := PopBytes_inv op s hfac hs
  rw [pair_snd hA] at h1
  cases r1 with
  | error e => exact handlerOK_trapWith op.Name op.Name e s s1 (Or.inl rfl) h1.1
  | ok mba =>
    try dsimp only
    cases pr.MapFromByteArray mba with
    | error e => exact handlerOK_trapWith op.Name op.Name e s s1 (Or.inl rfl) h1.1
    | ok m =>
      try dsimp only
      rcases hB : PopBytes op s1 with ⟨r2, s2⟩
      have h2 := PopBytes_inv op s1 hfac h1.2
      rw [pair_snd hB] at h2
      have hle : s2.fee ≤ s.fee := le_trans h2.1 h1.1
      cases r2 with
      | error e => exact handlerOK_trapWith op.Name op.Name e s s2 (Or.inl rfl) hle
      | ok k =>
        try dsimp only
        cases pr.MapContainsKey m k with
        | error e => exact handlerOK_trapWith op.Name op.Name e s s2 (Or.inl rfl) hle
        | ok result => exact handlerOK_pushIgnCont op.Name _ s s2 hle

theorem caseMapGetVal_OK (pr : Prims) (op : OpCode) (s : MachineState)
    (hfac : op.gasFactor ≤ 2) (hs : MInv s) :
    handlerOK op.Name s (caseMapGetVal pr op s) := by
  unfold caseMapGetVal
  rcases hA : PopBytes op s with ⟨r1, s1⟩
  have h1 := PopBytes_inv op s hfac hs
  rw [pair_snd hA] at h1
  cases r1 with
  | error e => exact handlerOK_trapWith op.Name op.Name e s s1 (Or.inl rfl) h1.1
  | ok mapAsByteArray =>
    try dsimp only
    rcases hB : PopBytes op s1 with ⟨r2, s2⟩
    have h2 := PopBytes_inv op s1 hfac h1.2
    rw [pair_snd hB] at h2
    have hle : s2.fee ≤ s.fee := le_trans h2.1 h1.1
    cases r2 with
    | error e => exact handlerOK_trapWith op.Name op.Name e s s2 (Or.inl rfl) hle
    | ok k =>
      try dsimp only
      cases pr.MapFromByteArray mapAsByteArray with
      | error e => exact handlerOK_trapWith op.Name op.Name e s s2 (Or.inl rfl) hle
      | ok m =>
        try dsimp only
        cases pr.MapGetVal m k with
        | error e => exact handlerOK_trapWith op.Name op.Name e s s2 (Or.inl rfl) hle
        | ok v => exact handlerOK_pushResult op op.Name _ s s2 rfl hle

theorem caseMapSetVal_OK (pr : Prims) (op : OpCode) (s : MachineState)
    (hfac : op.gasFactor ≤ 2) (hs : MInv s) :
    handlerOK op.Name s (caseMapSetVal pr op s) := by
  unfold caseMapSetVal
  rcases hA : PopBytes op s with ⟨r1, s1⟩
  have h1 := PopBytes_inv op s hfac hs
  rw [pair_snd hA] at h1
  cases r1 with
  | error e => exact handlerOK_trapWith op.Name op.Name e s s1 (Or.inl rfl) h1.1
  | ok mapAsByteArray =>
    try dsimp only
    cases pr.MapFromByteArray mapAsByteArray with
    | error e => exact handlerOK_trapWith op.Name op.Name e s s1 (Or.inl rfl) h1.1
    | ok m =>
      try dsimp only
      rcases hB : PopBytes op s1 with ⟨r2, s2⟩
      have h2 := PopBytes_inv op s1 hfac h1.2
      rw [pair_snd hB] at h2
      have hle2 : s2.fee ≤ s.fee := le_trans h2.1 h1.1
      cases r2 with
      | error e => exact handlerOK_trapWith op.Name op.Name e s s2 (Or.inl rfl) hle2
      | ok k =>
        try dsimp only
        rcases hC : PopBytes op s2 with ⟨r3, s3⟩
        have h3 := PopBytes_inv op s2 hfac h2.2
        rw [pair_snd hC] at h3
        have hle3 : s3.fee ≤ s.fee := le_trans h3.1 hle2
        cases r3 with
        | error e => exact handlerOK_trapWith op.Name op.Name e s s3 (Or.inl rfl) hle3
        | ok v =>
          try dsimp only
          cases pr.MapContainsKey m k with
          | error e => exact handlerOK_trapWith op.Name op.Name e s s3 (Or.inl rfl) hle3
          | ok hasKey =>
            try dsimp only
            cases (if hasKey then pr.MapSetVal m k v else pr.MapAppend m k v) with
            | error e => exact handlerOK_trapWith op.Name op.Name e s s3 (Or.inl rfl) hle3
            | ok m1 => exact handlerOK_pushResult op op.Name _ s s3 rfl hle3

theorem caseMapRemove_OK (pr : Prims) (op : OpCode) (s : MachineState)
    (hfac : op.gasFactor ≤ 2) (hs : MInv s) :
    handlerOK op.Name s (caseMapRemove pr op s) := by
  unfold caseMapRemove
  rcases hA : PopBytes op s with ⟨r1, s1⟩
  have h1 := PopBytes_inv op s hfac hs
  rw [pair_snd hA] at h1
  cases r1 with
  | error e => exact handlerOK_trapWith op.Name op.Name e s s1 (Or.inl rfl) h1.1
  | ok mapAsByteArray =>
    try dsimp only
    rcases hB : PopBytes op s1 with ⟨r2, s2⟩
    have h2 := PopBytes_inv op s1 hfac h1.2
    rw [pair_snd hB] at h2
    have hle : s2.fee ≤ s.fee := le_trans h2.1 h1.1
    cases r2 with
    | error e => exact handlerOK_trapWith op.Name op.Name e s s2 (Or.inl rfl) hle
    | ok k =>
      try dsimp only
      cases pr.MapFromByteArray mapAsByteArray with
      | error e => exact handlerOK_trapWith op.Name op.Name e s s2 (Or.inl rfl) hle
      | ok m =>
        try dsimp only
        cases pr.MapRemoveKey m k with
        | error e => exact handlerOK_trapWith op.Name op.Name e s s2 (Or.inl rfl) hle
        | ok m1 => exact handlerOK_pushResult op op.Name _ s s2 rfl hle

theorem caseNewArr_OK (pr : Prims) (op : OpCode) (s : MachineState)
    (hfac : op.gasFactor ≤ 2) (hs : MInv s) :
    handlerOK op.Name s (caseNewArr pr op s) := by
  unfold caseNewArr
  rcases hA : PopUnsignedBigInt op s with ⟨r, s1⟩
  have h1 := PopUnsignedBigInt_inv op s hfac hs
  rw [pair_snd hA] at h1
  cases r with
  | error e => exact handlerOK_trapWith op.Name op.Name e s s1 (Or.inl rfl) h1.1
  | ok length =>
    try dsimp only
    cases appendZerosN pr length.toNat pr.NewArray with
    | error e => exact handlerOK_trapWith op.Name op.Name e s s1 (Or.inl rfl) h1.1
    | ok a => exact handlerOK_pushResult op op.Name _ s s1 rfl h1.1

theorem caseArrAppend_OK (pr : Prims) (op : OpCode) (s : MachineState)
    (hfac : op.gasFactor ≤ 2) (hs : MInv s) :
    handlerOK op.Name s (caseArrAppend pr op s) := by
  unfold caseArrAppend
  rcases hA : PopBytes op s with ⟨aR, s1⟩
  have h1 := PopBytes_inv op s hfac hs
  rw [pair_snd hA] at h1
  try dsimp only
  rcases hB : PopBytes op s1 with ⟨vR, s2⟩
  have h2 := PopBytes_inv op s1 hfac h1.2
  rw [pair_snd hB] at h2
  try dsimp only
  have hle : s2.fee ≤ s.fee := le_trans h2.1 h1.1
  cases vR with
  | error e =>
    cases aR <;> exact handlerOK_trapWith op.Name op.Name e s s2 (Or.inl rfl) hle
  | ok v =>
    cases aR with
    | error e => exact handlerOK_trapWith op.Name op.Name e s s2 (Or.inl rfl) hle
    | ok a =>
      try dsimp only
      cases pr.ArrayFromByteArray a with
      | error e => exact handlerOK_trapWith op.Name op.Name e s s2 (Or.inl rfl) hle
      | ok arr =>
        try dsimp only
        cases pr.ArrAppendElem arr v with
        | error e =>
          exact handlerOK_trapWith op.Name op.Name msgArrAppendSize s s2 (Or.inl rfl) hle
        | ok arr1 => exact handlerOK_pushResult op op.Name _ s s2 rfl hle

theorem caseArrInsert_OK (pr : Prims) (op : OpCode) (s : MachineState)
    (hfac : op.gasFactor ≤ 2) (hs : MInv s) :
    handlerOK op.Name s (caseArrInsert pr op s) := by
  unfold caseArrInsert
  rcases hA : PopBytes op s with ⟨r1, s1⟩
  have h1 := PopBytes_inv op s hfac hs
  rw [pair_snd hA] at h1
  cases r1 with
  | error e => exact handlerOK_trapWith op.Name op.Name e s s1 (Or.inl rfl) h1.1
  | ok a =>
    try dsimp only
    rcases hB : PopUnsignedBigInt op s1 with ⟨r2, s2⟩
    have h2 := PopUnsignedBigInt_inv op s1 hfac h1.2
    rw [pair_snd hB] at h2
    have hle2 : s2.fee ≤ s.fee := le_trans h2.1 h1.1
    cases r2 with
    | error e => exact handlerOK_trapWith op.Name op.Name e s s2 (Or.inl rfl) hle2
    | ok i =>
      try dsimp only
      rcases hC : PopBytes op s2 with ⟨r3, s3⟩
      have h3 := PopBytes_inv op s2 hfac h2.2
      rw [pair_snd hC] at h3
      have hle3 : s3.fee ≤ s.fee := le_trans h3.1 hle2
      cases r3 with
      | error e => exact handlerOK_trapWith op.Name op.Name e s s3 (Or.inl rfl) hle3
      | ok element =>
        try dsimp only
        cases pr.ArrayFromByteArray a with
        | error e => exact handlerOK_trapWith op.Name op.Name e s s3 (Or.inl rfl) hle3
        | ok arr =>
          try dsimp only
          cases BigIntToUInt16 i with
          | error e => exact handlerOK_trapWith op.Name op.Name e s s3 (Or.inl rfl) hle3
          | ok index =>
            try dsimp only
            cases pr.ArrGetSize arr with
            | error e => exact handlerOK_trapWith op.Name op.Name e s s3 (Or.inl rfl) hle3
            | ok size =>
              try dsimp only
              split
              · exact handlerOK_trapWith op.Name op.Name msgIndexOOBCap s s3 (Or.inl rfl) hle3
              · cases pr.ArrInsertAt arr index element with
                | error e => exact handlerOK_trapWith op.Name op.Name e s s3 (Or.inl rfl) hle3
                | ok arr1 => exact handlerOK_pushResult op op.Name _ s s3 rfl hle3

theorem caseArrRemove_OK (pr : Prims) (op : OpCode) (s : MachineState)
    (hfac : op.gasFactor ≤ 2) (hs : MInv s) :
    handlerOK op.Name s (caseArrRemove pr op s) := by
  unfold caseArrRemove
  rcases hA : PopBytes op s with ⟨r1, s1⟩
  have h1 := PopBytes_inv op s hfac hs
  rw [pair_snd hA] at h1
  cases r1 with
  | error e => exact handlerOK_trapWith op.Name op.Name e s s1 (Or.inl rfl) h1.1
  | ok a =>
    try dsimp only
    rcases hB : PopUnsignedBigInt op s1 with ⟨r2, s2⟩
    have h2 := PopUnsignedBigInt_inv op s1 hfac h1.2
    rw [pair_snd hB] at h2
    have hle2 : s2.fee ≤ s.fee := le_trans h2.1 h1.1
    cases r2 with
    | error e => exact handlerOK_trapWith op.Name op.Name e s s2 (Or.inl rfl) hle2
    | ok i =>
      try dsimp only
      cases BigIntToUInt16 i with
      | error e => exact handlerOK_trapWith op.Name op.Name e s s2 (Or.inl rfl) hle2
      | ok index =>
        try dsimp only
        cases pr.ArrayFromByteArray a with
        | error e => exact handlerOK_trapWith op.Name op.Name e s s2 (Or.inl rfl) hle2
        | ok arr =>
          try dsimp only
          cases pr.ArrRemoveAt arr index with
          | error e => exact handlerOK_trapWith op.Name op.Name e s s2 (Or.inl rfl) hle2
          | ok arr1 => exact handlerOK_pushResult op op.Name _ s s2 rfl hle2

theorem caseArrAt_OK (pr : Prims) (op : OpCode) (s : MachineState)
    (hfac : op.gasFactor ≤ 2) (hs : MInv s) :
    handlerOK op.Name s (caseArrAt pr op s) := by
  unfold caseArrAt
  rcases hA : PopBytes op s with ⟨r1, s1⟩
  have h1 := PopBytes_inv op s hfac hs
  rw [pair_snd hA] at h1
  cases r1 with
  | error e => exact handlerOK_trapWith op.Name op.Name e s s1 (Or.inl rfl) h1.1
  | ok a =>
    try dsimp only
    rcases hB : PopUnsignedBigInt op s1 with ⟨r2, s2⟩
    have h2 := PopUnsignedBigInt_inv op s1 hfac h1.2
    rw [pair_snd hB] at h2
    have hle2 : s2.fee ≤ s.fee := le_trans h2.1 h1.1
    cases r2 with
    | error e => exact handlerOK_trapWith op.Name op.Name e s s2 (Or.inl rfl) hle2
    | ok i =>
      try dsimp only
      cases BigIntToUInt16 i with
      | error e => exact handlerOK_trapWith op.Name op.Name e s s2 (Or.inl rfl) hle2
      | ok index =>
        try dsimp only
        cases pr.ArrayFromByteArray a with
        | error e => exact handlerOK_trapWith op.Name op.Name e s s2 (Or.inl rfl) hle2
        | ok arr =>
          try dsimp only
          cases pr.ArrAtIndex arr index with
          | error e => exact handlerOK_trapWith op.Name op.Name e s s2 (Or.inl rfl) hle2
          | ok element => exact handlerOK_pushResult op op.Name _ s s2 rfl hle2

theorem caseArrLen_OK (pr : Prims) (op : OpCode) (s : MachineState)
    (hfac : op.gasFactor ≤ 2) (hs : MInv s) :
    handlerOK op.Name s (caseArrLen pr op s) := by
  unfold caseArrLen
  rcases hA : PopBytes op s with ⟨r1, s1⟩
  have h1 := PopBytes_inv op s hfac hs
  rw [pair_snd hA] at h1
  cases r1 with
  | error e => exact handlerOK_trapWith op.Name op.Name e s s1 (Or.inl rfl) h1.1
  | ok a =>
    try dsimp only
    cases pr.ArrayFromByteArray a with
    | error e => exact handlerOK_trapWith op.Name op.Name e s s1 (Or.inl rfl) h1.1
    | ok arr =>
      try dsimp only
      cases pr.ArrGetSize arr with
      | error e => exact handlerOK_trapWith op.Name op.Name e s s1 (Or.inl rfl) h1.1
      | ok length => exact handlerOK_pushResult op op.Name _ s s1 rfl h1.1

theorem caseNewStr_OK (pr : Prims) (op : OpCode) (s : MachineState) :
    handlerOK op.Name s (caseNewStr pr op s) := by
  unfold caseNewStr
  rcases hA : fetchMany s 2 with ⟨r, s1⟩
  have hf1 : s1.fee = s.fee := by
    have hx := (fetchMany_inv s 2).1
    rw [pair_snd hA] at hx
    exact hx
  cases r with
  | error e => exact handlerOK_trapWith op.Name op.Name e s s1 (Or.inl rfl) (le_of_eq hf1)
  | ok sizeBytes =>
    try dsimp only
    cases pr.ByteArrayToUI16 sizeBytes with
    | error e => exact handlerOK_trapWith op.Name op.Name e s s1 (Or.inl rfl) (le_of_eq hf1)
    | ok size => exact handlerOK_pushOrSilentTrap op.Name _ s s1 (le_of_eq hf1)

theorem caseStoreFld_OK (pr : Prims) (op : OpCode) (s : MachineState)
    (hfac : op.gasFactor ≤ 2) (hs : MInv s) :
    handlerOK op.Name s (caseStoreFld pr op s) := by
  unfold caseStoreFld
  rcases hA : fetchMany s 2 with ⟨iR, s1⟩
  have hf1 : s1.fee = s.fee := by
    have hx := (fetchMany_inv s 2).1
    rw [pair_snd hA] at hx
    exact hx
  have hi1 : MInv s1 := by
    have hx := fetchMany_MInv s 2 hs
    rw [pair_snd hA] at hx
    exact hx
  try dsimp only
  rcases hB : PopBytes op s1 with ⟨eR, s2⟩
  have h2 := PopBytes_inv op s1 hfac hi1
  rw [pair_snd hB] at h2
  try dsimp only
  rcases hC : PopBytes op s2 with ⟨stR, s3⟩
  have h3 := PopBytes_inv op s2 hfac h2.2
  rw [pair_snd hC] at h3
  try dsimp only
  have hle : s3.fee ≤ s.fee := by
    have := le_trans h3.1 h2.1
    omega
  cases stR with
  | error e =>
    cases iR <;> cases eR <;>
      exact handlerOK_trapWith op.Name op.Name e s s3 (Or.inl rfl) hle
  | ok structBytes =>
    cases iR with
    | error e =>
      cases eR <;> exact handlerOK_trapWith op.Name op.Name e s s3 (Or.inl rfl) hle
    | ok indexBytes =>
      cases eR with
      | error e => exact handlerOK_trapWith op.Name op.Name e s s3 (Or.inl rfl) hle
      | ok element =>
        try dsimp only
        cases pr.structFromByteArray structBytes with
        | error e =>
          cases pr.ByteArrayToUI16 indexBytes <;>
            exact handlerOK_trapWith op.Name op.Name e s s3 (Or.inl rfl) hle
        | ok str =>
          cases pr.ByteArrayToUI16 indexBytes with
          | error e => exact handlerOK_trapWith op.Name op.Name e s s3 (Or.inl rfl) hle
          | ok index =>
            try dsimp only
            cases pr.storeFieldAt str index element with
            | error e => exact handlerOK_trapWith op.Name op.Name e s s3 (Or.inl rfl) hle
            | ok str1 => exact handlerOK_pushOrSilentTrap op.Name _ s s3 hle

theorem caseLoadFld_OK (pr : Prims) (op : OpCode) (s : MachineState)
    (hfac : op.gasFactor ≤ 2) (hs : MInv s) :
    handlerOK op.Name s (caseLoadFld pr op s) := by
  unfold caseLoadFld
  rcases hA : fetchMany s 2 with ⟨iR, s1⟩
  have hf1 : s1.fee = s.fee := by
    have hx := (fetchMany_inv s 2).1
    rw [pair_snd hA] at hx
    exact hx
  have hi1 : MInv s1 := by
    have hx := fetchMany_MInv s 2 hs
    rw [pair_snd hA] at hx
    exact hx
  try dsimp only
  rcases hB : PopBytes op s1 with ⟨stR, s2⟩
  have h2 := PopBytes_inv op s1 hfac hi1
  rw [pair_snd hB] at h2
  try dsimp only
  have hle : s2.fee ≤ s.fee := by omega
  cases stR with
  | error e =>
    cases iR <;> exact handlerOK_trapWith op.Name op.Name e s s2 (Or.inl rfl) hle
  | ok structBytes =>
    cases iR with
    | error e => exact handlerOK_trapWith op.Name op.Name e s s2 (Or.inl rfl) hle
    | ok indexBytes =>
      try dsimp only
      cases pr.structFromByteArray structBytes with
      | error e =>
        cases pr.ByteArrayToUI16 indexBytes <;>
          exact handlerOK_trapWith op.Name op.Name e s s2 (Or.inl rfl) hle
      | ok str =>
        cases pr.ByteArrayToUI16 indexBytes with
        | error e => exact handlerOK_trapWith op.Name op.Name e s s2 (Or.inl rfl) hle
        | ok index =>
          try dsimp only
          cases pr.loadFieldAt str index with
          | error e => exact handlerOK_trapWith op.Name op.Name e s s2 (Or.inl rfl) hle
          | ok element => exact handlerOK_pushOrSilentTrap op.Name _ s s2 hle

theorem caseCheckSig_OK (ctx : Context) (pr : Prims) (op : OpCode) (s : MachineState)
    (hfac : op.gasFactor ≤ 2) (hs : MInv s) :
    handlerOK op.Name s (caseCheckSig ctx pr op s) := by
  unfold caseCheckSig
  rcases hA : PopBytes op s with ⟨pkR, s1⟩
  have h1 := PopBytes_inv op s hfac hs
  rw [pair_snd hA] at h1
  try dsimp only
  rcases hB : PopBytes op s1 with ⟨hR, s2⟩
  have h2 := PopBytes_inv op s1 hfac h1.2
  rw [pair_snd hB] at h2
  try dsimp only
  have hle : s2.fee ≤ s.fee := le_trans h2.1 h1.1
  cases pkR with
  | error e =>
    cases hR <;> exact handlerOK_trapWith op.Name op.Name e s s2 (Or.inl rfl) hle
  | ok publicKeySig =>
    cases hR with
    | error e => exact handlerOK_trapWith op.Name op.Name e s s2 (Or.inl rfl) hle
    | ok hash =>
      try dsimp only
      split
      · exact handlerOK_trapWith op.Name op.Name msgNotValidAddress s s2 (Or.inl rfl) hle
      · split
        · exact handlerOK_trapWith op.Name op.Name msgNotValidHash s s2 (Or.inl rfl) hle
        · exact handlerOK_pushIgnCont op.Name _ s s2 hle

theorem OpCodes_code_eq : ∀ b, b < 65 → (OpCodes.getD b defaultOpCode).code = b := by decide

theorem OpCodes_gasFactor_le : ∀ b, b < 65 → (OpCodes.getD b defaultOpCode).gasFactor ≤ 2 := by
  decide

theorem OpCodes_length_eq : OpCodes.length = 65 := by decide

/-- Fee part of the dispatch switch: no opcode increases the gas counter. -/
theorem dispatch_fee (ctx : Context) (pr : Prims) (op : OpCode) (s : MachineState)
    (hfac : op.gasFactor ≤ 2) (hs : MInv s) :
    (dispatch ctx pr op s).st.fee ≤ s.fee := by
  unfold dispatch
  split
  · exact (casePushInt_OK op s).1
  · exact (casePushBool_OK op s).1
  · exact (casePushChar_OK op s).1
  · exact (casePushStr_OK op s).1
  · exact (casePush_OK op s).1
  · exact (caseDup_OK op s hfac hs).1
  · exact (caseRoll_OK op s).1
  · exact (caseSwap_OK op s).1
  · exact (casePop_OK op s hfac hs).1
  · exact (evaluateBigIntOperation_OK op _ s hfac hs).1
  · exact (evaluateBigIntOperation_OK op _ s hfac hs).1
  · exact (evaluateBigIntOperation_OK op _ s hfac hs).1
  · exact (caseDiv_OK op s hfac hs).1
  · exact (caseMod_OK op s hfac hs).1
  · exact (caseExp_OK op s hfac hs).1
  · exact (caseNeg_OK op s hfac hs).1
  · exact (caseEq_OK op s hfac hs).1
  · exact (caseNotEq_OK op s hfac hs).1
  · exact (evaluateRelationalComp_OK op _ s hfac hs).1
  · exact (evaluateRelationalComp_OK op _ s hfac hs).1
  · exact (evaluateRelationalComp_OK op _ s hfac hs).1
  · exact (evaluateRelationalComp_OK op _ s hfac hs).1
  · exact (caseShiftL_OK op s hfac hs).1
  · exact (caseShiftR_OK op s hfac hs).1
  · exact (evaluateBigIntOperation_OK op _ s hfac hs).1
  · exact (evaluateBigIntOperation_OK op _ s hfac hs).1
  · exact (evaluateBigIntOperation_OK op _ s hfac hs).1
  · exact (caseBitwiseNot_OK op s hfac hs).1
  · exact (caseNoOp_OK op s).1
  · exact (caseJmp_OK op s).1
  · exact (caseJmpTrue_OK op s hfac hs).1
  · exact (caseJmpFalse_OK op s hfac hs).1
  · exact (caseCall_OK op s hfac hs).1
  · exact (caseCallTrue_OK op s hfac hs).1
  · exact (caseCallExt_OK op s).1
  · exact (caseRet_OK op s).1
  · exact (caseSize_OK op s hfac hs).1
  · exact (caseStoreLoc_OK op s hfac hs).1
  · exact (caseStoreSt_OK ctx op s hfac hs).1
  · exact (caseLoadLoc_OK op s).1
  · exact (caseLoadSt_OK ctx op s).1
  · exact (caseAddress_OK ctx op s).1
  · exact (caseIssuer_OK ctx op s).1
  · exact (caseBalance_OK ctx op s).1
  · exact (caseCaller_OK ctx op s).1
  · exact (caseCallVal_OK ctx op s).1
  · exact (caseCallData_OK ctx op s).1
  · exact (caseNewMap_OK pr op s).1
  · exact (caseMapHasKey_OK pr op s hfac hs).1
  · exact (caseMapGetVal_OK pr op s hfac hs).1
  · exact (caseMapSetVal_OK pr op s hfac hs).1
  · exact (caseMapRemove_OK pr op s hfac hs).1
  · exact (caseNewArr_OK pr op s hfac hs).1
  · exact (caseArrAppend_OK pr op s hfac hs).1
  · exact (caseArrInsert_OK pr op s hfac hs).1
  · exact (caseArrRemove_OK pr op s hfac hs).1
  · exact (caseArrAt_OK pr op s hfac hs).1
  · exact (caseArrLen_OK pr op s hfac hs).1
  · exact (caseNewStr_OK pr op s).1
  · exact (caseStoreFld_OK pr op s hfac hs).1
  · exact (caseLoadFld_OK pr op s hfac hs).1
  · exact (caseSHA3_OK pr op s hfac hs).1
  · exact (caseCheckSig_OK ctx pr op s hfac hs).1
  · exact le_refl _
  · exact le_refl _
  · exact le_refl _

/-- Full dispatch property away from `ErrHalt`: the fee does not grow and
any trap without a failed push leaves a prefixed diagnostic on top. -/
theorem dispatch_OK (ctx : Context) (pr : Prims) (op : OpCode) (s : MachineState)
    (hfac : op.gasFactor ≤ 2) (hs : MInv s) (hne : op.code ≠ 63) :
    handlerOK op.Name s (dispatch ctx pr op s) := by
  unfold dispatch
  split
  · exact casePushInt_OK op s
  · exact casePushBool_OK op s
  · exact casePushChar_OK op s
  · exact casePushStr_OK op s
  · exact casePush_OK op s
  · exact caseDup_OK op s hfac hs
  · exact caseRoll_OK op s
  · exact caseSwap_OK op s
  · exact casePop_OK op s hfac hs
  · exact evaluateBigIntOperation_OK op _ s hfac hs
  · exact evaluateBigIntOperation_OK op _ s hfac hs
  · exact evaluateBigIntOperation_OK op _ s hfac hs
  · exact caseDiv_OK op s hfac hs
  · exact caseMod_OK op s hfac hs
  · exact caseExp_OK op s hfac hs
  · exact caseNeg_OK op s hfac hs
  · exact caseEq_OK op s hfac hs
  · exact caseNotEq_OK op s hfac hs
  · exact evaluateRelationalComp_OK op _ s hfac hs
  · exact evaluateRelationalComp_OK op _ s hfac hs
  · exact evaluateRelationalComp_OK op _ s hfac hs
  · exact evaluateRelationalComp_OK op _ s hfac hs
  · exact caseShiftL_OK op s hfac hs
  · exact caseShiftR_OK op s hfac hs
  · exact evaluateBigIntOperation_OK op _ s hfac hs
  · exact evaluateBigIntOperation_OK op _ s hfac hs
  · exact evaluateBigIntOperation_OK op _ s hfac hs
  · exact caseBitwiseNot_OK op s hfac hs
  · exact caseNoOp_OK op s
  · exact caseJmp_OK op s
  · exact caseJmpTrue_OK op s hfac hs
  · exact caseJmpFalse_OK op s hfac hs
  · exact caseCall_OK op s hfac hs
  · exact caseCallTrue_OK op s hfac hs
  · exact caseCallExt_OK op s
  · exact caseRet_OK op s
  · exact caseSize_OK op s hfac hs
  · exact caseStoreLoc_OK op s hfac hs
  · exact caseStoreSt_OK ctx op s hfac hs
  · exact caseLoadLoc_OK op s
  · exact caseLoadSt_OK ctx op s
  · exact caseAddress_OK ctx op s
  · exact caseIssuer_OK ctx op s
  · exact caseBalance_OK ctx op s
  · exact caseCaller_OK ctx op s
  · exact caseCallVal_OK ctx op s
  · exact caseCallData_OK ctx op s
  · exact caseNewMap_OK pr op s
  · exact caseMapHasKey_OK pr op s hfac hs
  · exact caseMapGetVal_OK pr op s hfac hs
  · exact caseMapSetVal_OK pr op s hfac hs
  · exact caseMapRemove_OK pr op s hfac hs
  · exact caseNewArr_OK pr op s hfac hs
  · exact caseArrAppend_OK pr op s hfac hs
  · exact caseArrInsert_OK pr op s hfac hs
  · exact caseArrRemove_OK pr op s hfac hs
  · exact caseArrAt_OK pr op s hfac hs
  · exact caseArrLen_OK pr op s hfac hs
  · exact caseNewStr_OK pr op s
  · exact caseStoreFld_OK pr op s hfac hs
  · exact caseLoadFld_OK pr op s hfac hs
  · exact caseSHA3_OK pr op s hfac hs
  · exact caseCheckSig_OK ctx pr op s hfac hs
  · rename_i h63
    exact absurd h63 hne
  · exact caseHalt_OK op.Name s
  · exact handlerOK_cont op.Name s s (le_refl _)

/-- Name of the opcode at the current program counter (the fallback byte 0
is never consulted: an out-of-range pc traps in fetch). -/
def opNameAt (s : MachineState) : String :=
  (OpCodes.getD (s.code.getD s.pc 0) defaultOpCode).Name

theorem fetch_ok_byte (s : MachineState) {b : Byte} {t : MachineState}
    (h : fetch s = (.ok b, t)) : b = s.code.getD s.pc 0 := by
  unfold fetch at h
  split at h
  · simp only [Prod.mk.injEq, Except.ok.injEq] at h
    exact h.1.symm
  · simp at h

/-- One instruction never increases the gas counter: base charge, metered
pops and the Exp budget check included. -/
theorem step_fee (ctx : Context) (pr : Prims) (s : MachineState) (hs : MInv s) :
    (step ctx pr s).st.fee ≤ s.fee := by
  unfold step
  try dsimp only
  rcases hA : fetch { s with pushErr := false } with ⟨r, s1⟩
  have hf1 : s1.fee = s.fee := by
    have hx := (fetch_inv { s with pushErr := false }).1
    rw [pair_snd hA] at hx
    exact hx
  have hi1 : MInv s1 := by
    have hx := fetch_MInv { s with pushErr := false } ⟨hs.1, hs.2⟩
    rw [pair_snd hA] at hx
    exact hx
  cases r with
  | error e =>
    rw [trapWith_st_fee]
    omega
  | ok byteCode =>
    try dsimp only
    split
    · rw [trapWith_st_fee]
      omega
    · split
      · rw [trapWith_st_fee]
        omega
      · rename_i hlen hfee
        have hb : byteCode < 65 := by
          rw [OpCodes_length_eq] at hlen
          exact Nat.lt_of_not_le hlen
        have hfac := OpCodes_gasFactor_le byteCode hb
        have hminv : MInv { s1 with fee :=
            s1.fee - (OpCodes.getD byteCode defaultOpCode).gasPrice } := by
          refine ⟨hi1.1, ?_⟩
          show s1.fee - (OpCodes.getD byteCode defaultOpCode).gasPrice < U64MOD
          have h2 := hi1.2
          omega
        have hd := dispatch_fee ctx pr (OpCodes.getD byteCode defaultOpCode)
          { s1 with fee := s1.fee - (OpCodes.getD byteCode defaultOpCode).gasPrice } hfac hminv
        have hsub : ({ s1 with fee :=
            s1.fee - (OpCodes.getD byteCode defaultOpCode).gasPrice } :
              MachineState).fee ≤ s1.fee := by
          show s1.fee - (OpCodes.getD byteCode defaultOpCode).gasPrice ≤ s1.fee
          omega
        exact le_trans hd (le_trans hsub (le_of_eq hf1))

/-- One instruction with its opcode not `ErrHalt`: the fee does not grow,
and a trap with no failed push leaves a prefixed diagnostic on top. -/
theorem step_OK (ctx : Context) (pr : Prims) (s : MachineState) (hs : MInv s)
    (hne : s.code.getD s.pc 0 ≠ 63) :
    handlerOK (opNameAt s) s (step ctx pr s) := by
  unfold step
  try dsimp only
  rcases hA : fetch { s with pushErr := false } with ⟨r, s1⟩
  have hf1 : s1.fee = s.fee := by
    have hx := (fetch_inv { s with pushErr := false }).1
    rw [pair_snd hA] at hx
    exact hx
  have hi1 : MInv s1 := by
    have hx := fetch_MInv { s with pushErr := false } ⟨hs.1, hs.2⟩
    rw [pair_snd hA] at hx
    exact hx
  cases r with
  | error e =>
    exact handlerOK_trapWith (opNameAt s) vmExecLoc e s s1 (Or.inr rfl) (le_of_eq hf1)
  | ok byteCode =>
    have hbyte0 := fetch_ok_byte _ hA
    have hbyte : byteCode = s.code.getD s.pc 0 := hbyte0
    try dsimp only
    split
    · exact handlerOK_trapWith (opNameAt s) vmExecLoc msgNotValidOpCode s s1 (Or.inr rfl)
        (le_of_eq hf1)
    · split
      · exact handlerOK_trapWith (opNameAt s) vmExecLoc msgBaseOutOfGas s s1 (Or.inr rfl)
          (le_of_eq hf1)
      · rename_i hlen hfee
        have hb : byteCode < 65 := by
          rw [OpCodes_length_eq] at hlen
          exact Nat.lt_of_not_le hlen
        have hfac := OpCodes_gasFactor_le byteCode hb
        have hcode : (OpCodes.getD byteCode defaultOpCode).code = byteCode :=
          OpCodes_code_eq byteCode hb
        have hne2 : (OpCodes.getD byteCode defaultOpCode).code ≠ 63 := by
          rw [hcode, hbyte]
          exact hne
        have hminv : MInv { s1 with fee :=
            s1.fee - (OpCodes.getD byteCode defaultOpCode).gasPrice } := by
          refine ⟨hi1.1, ?_⟩
          show s1.fee - (OpCodes.getD byteCode defaultOpCode).gasPrice < U64MOD
          have h2 := hi1.2
          omega
        have hd := dispatch_OK ctx pr (OpCodes.getD byteCode defaultOpCode)
          { s1 with fee := s1.fee - (OpCodes.getD byteCode defaultOpCode).gasPrice }
          hfac hminv hne2
        have hname : opNameAt s = (OpCodes.getD byteCode defaultOpCode).Name := by
          unfold opNameAt
          rw [hbyte]
        rw [hname]
        refine handlerOK_mono _ hd ?_
        show s1.fee - (OpCodes.getD byteCode defaultOpCode).gasPrice ≤ s.fee
        omega

/-- Claim C9: the signed big-integer codec round-trips: decoding the
encoding of any integer yields the integer back, the encoding of zero is the
single byte `[0]`, and a non-zero value is a sign byte (0 non-negative, 1
negative) followed by the minimal big-endian magnitude. -/
theorem claim9_signed_codec_round_trip :
    (∀ n : Int, SignedBigIntConversion (SignedByteArrayConversion n) = Except.ok n) ∧
    SignedByteArrayConversion 0 = [0] ∧
    (∀ n : Int, n ≠ 0 →
      SignedByteArrayConversion n = (if n < 0 then 1 else 0) :: natToBE n.natAbs) := by
  refine ⟨?_, by simp [SignedByteArrayConversion], ?_⟩
  · intro n
    by_cases h0 : n = 0
    · subst h0
      simp [SignedByteArrayConversion, SignedBigIntConversion, beToNat]
    · by_cases hneg : n < 0
      · have henc : SignedByteArrayConversion n = 1 :: natToBE n.natAbs := by
          simp [SignedByteArrayConversion, h0, hneg]
        rw [henc]
        unfold SignedBigIntConversion
        simp only [if_pos rfl, Except.ok.injEq]
        rw [beToNat_natToBE, Int.ofNat_natAbs_of_nonpos (le_of_lt hneg), neg_neg]
        simp
      · have henc : SignedByteArrayConversion n = 0 :: natToBE n.natAbs := by
          simp [SignedByteArrayConversion, h0, hneg]
        rw [henc]
        unfold SignedBigIntConversion
        norm_num
        rw [beToNat_natToBE]
        exact Int.natAbs_of_nonneg (by omega)
  · intro n h0
    simp [SignedByteArrayConversion, h0]

theorem claim9_witness :
    SignedBigIntConversion (SignedByteArrayConversion (-5)) = Except.ok (-5) ∧
    SignedByteArrayConversion (-5) = [1, 5] := by
  constructor
  · exact claim9_signed_codec_round_trip.1 (-5)
  · rw [claim9_signed_codec_round_trip.2.2 (-5) (by decide)]
    rfl

/-- Claim C10: the metered pop is not atomic on gas exhaustion: when
`PopBytes`, `PopSignedBigInt` or `PopUnsignedBigInt` returns `Out of gas` on
a non-empty evaluation stack, the former top element has already been
removed and is not restored, so the stack is one element shorter. -/
theorem claim10_metered_pop_not_atomic (op : OpCode) (s : MachineState) (e : Bytes)
    (rest : List Bytes) (hstack : s.evalStack = e :: rest) :
    ((PopBytes op s).1 = .error msgOutOfGas →
      ((PopBytes op s).2).evalStack = rest ∧
      ((PopBytes op s).2).evalStack.length + 1 = s.evalStack.length) ∧
    ((PopSignedBigInt op s).1 = .error msgOutOfGas →
      ((PopSignedBigInt op s).2).evalStack = rest ∧
      ((PopSignedBigInt op s).2).evalStack.length + 1 = s.evalStack.length) ∧
    ((PopUnsignedBigInt op s).1 = .error msgOutOfGas →
      ((PopUnsignedBigInt op s).2).evalStack = rest ∧
      ((PopUnsignedBigInt op s).2).evalStack.length + 1 = s.evalStack.length) := by
  have hpb : ((PopBytes op s).2).evalStack = rest := by
    unfold PopBytes
    rw [stackPop_cons s e rest hstack]
    try dsimp only
    split <;> rfl
  have hlen : rest.length + 1 = s.evalStack.length := by
    rw [hstack]
    simp
  refine ⟨fun _ => ⟨hpb, by rw [hpb]; exact hlen⟩, ?_, ?_⟩
  · intro _
    have hps : ((PopSignedBigInt op s).2).evalStack = rest := by
      unfold PopSignedBigInt
      rcases hp : PopBytes op s with ⟨r, s1⟩
      have hx : s1.evalStack = rest := by
        rw [pair_snd hp] at hpb
        exact hpb
      cases r with
      | error e0 => exact hx
      | ok bytes =>
        try dsimp only
        cases SignedBigIntConversion bytes <;> exact hx
    exact ⟨hps, by rw [hps]; exact hlen⟩
  · intro _
    have hpu : ((PopUnsignedBigInt op s).2).evalStack = rest := by
      unfold PopUnsignedBigInt
      rcases hp : PopBytes op s with ⟨r, s1⟩
      have hx : s1.evalStack = rest := by
        rw [pair_snd hp] at hpb
        exact hpb
      cases r with
      | error e0 => exact hx
      | ok bytes =>
        try dsimp only
        cases UnsignedBigIntConversion bytes <;> exact hx
    exact ⟨hpu, by rw [hpu]; exact hlen⟩

/-- Concrete state for the C10 witness: one 5-byte element, no gas left. -/
def w10state : MachineState :=
  { code := [], pc := 0, fee := 0, evalStack := [[1, 2, 3, 4, 5]], memoryUsage := 5,
    memoryMax := 1000000, callStack := [], pushErr := false }

theorem claim10_witness :
    (PopBytes (OpCodes.getD 9 defaultOpCode) w10state).1 = .error msgOutOfGas ∧
    ((PopBytes (OpCodes.getD 9 defaultOpCode) w10state).2).evalStack = [] ∧
    ((PopBytes (OpCodes.getD 9 defaultOpCode) w10state).2).evalStack.length + 1 =
      w10state.evalStack.length := by
  have h := (claim10_metered_pop_not_atomic (OpCodes.getD 9 defaultOpCode) w10state
    [1, 2, 3, 4, 5] [] rfl).1 rfl
  exact ⟨rfl, h.1, h.2⟩

/-- Claim C1: gas is monotonically non-increasing: for any instruction
executed by `VM.Exec` (base charge and every metered pop included) the gas
counter after the instruction is at most the gas counter before it, for
every bytecode, gas budget, context and primitive instantiation. The two
hypotheses are Go representation facts: slice lengths fit a signed 64-bit
int and the `uint64` fee is below `2^64`. -/
theorem claim1_gas_monotone (ctx : Context) (pr : Prims) (s : MachineState)
    (hlen : ∀ b ∈ s.evalStack, b.length < 2 ^ 63) (hfee : s.fee < 2 ^ 64) :
    (step ctx pr s).st.fee ≤ s.fee :=
  step_fee ctx pr s ⟨hlen, hfee⟩

/-- Concrete initial state for the C1 witness: an `Add` on two encoded
integers with fee 11 (the gas-consumption unit test). -/
def w1state : MachineState :=
  { code := [9, 64], pc := 0, fee := 9, evalStack := [[0, 8], [0, 8]], memoryUsage := 4,
    memoryMax := 1000000, callStack := [], pushErr := false }

theorem claim1_witness :
    (step (mkContext [9, 64] 9) trivialPrims w1state).st.fee ≤ 9 :=
  claim1_gas_monotone (mkContext [9, 64] 9) trivialPrims w1state
    (by intro b hb; fin_cases hb <;> decide) (by decide)

/-- Counterexample to claim C2 as stated: `ErrHalt` makes `VM.Exec` return
failure with no pushed message, here with an entirely empty evaluation
stack, so the stack is not non-empty and carries no prefixed diagnostic. -/
theorem claim2_errhalt_counterexample :
    ∃ t, vmExec (mkContext [63] 10) trivialPrims 1000000 5 = .done false t ∧
      t.evalStack = [] :=
  ⟨_, rfl, rfl⟩

/-- Claim C2 (amended): whenever one instruction of `VM.Exec` traps through
an opcode other than `ErrHalt` and no evaluation-stack push failed against
the memory bound during that instruction, the evaluation stack is non-empty
and its top begins with `<opname>: ` for the trapping opcode or with
`vm.exec(): ` for fetch and top-level errors; and the oversized-contract
rejection pushes a `vm.exec(): `-prefixed message as well. -/
theorem claim2_trap_diagnostic (ctx : Context) (pr : Prims) (s t : MachineState)
    (hlen : ∀ b ∈ s.evalStack, b.length < 2 ^ 63) (hfee : s.fee < 2 ^ 64)
    (hne : s.code.getD s.pc 0 ≠ 63)
    (htrap : step ctx pr s = .trap t) (hp : t.pushErr = false) :
    topDiag (opNameAt s) t :=
  (step_OK ctx pr s ⟨hlen, hfee⟩ hne).2 t htrap hp

/-- Concrete state for the C2 witness: a `Div` on an empty stack traps with
`div: pop() on empty stack` on top. -/
def w2state : MachineState :=
  { code := [12], pc := 0, fee := 10, evalStack := [], memoryUsage := 0,
    memoryMax := 1000000, callStack := [], pushErr := false }

theorem claim2_witness :
    ∃ t, step (mkContext [12] 10) trivialPrims w2state = .trap t ∧ t.pushErr = false ∧
      topDiag (opNameAt w2state) t := by
  refine ⟨(step (mkContext [12] 10) trivialPrims w2state).st, rfl, rfl, ?_⟩
  exact claim2_trap_diagnostic (mkContext [12] 10) trivialPrims w2state _
    (by intro b hb; cases hb) (by decide) (by decide) rfl rfl

/-- The diagnostic of the out-of-bounds `Push` scenario of claim C8. -/
def msgPushOOBFull : String := "push: Instruction set out of bounds"

/-- Claim C8: `fetchMany n` succeeds exactly when `len(code) - pc > n`
holds strictly, returning the `n` bytes at `pc` (pointwise the code bytes
from `pc`) and advancing `pc` by `n`; otherwise it fails with `Instruction
set out of bounds` leaving the state unchanged.  In particular the bytecode
`Push, 2, 128, Halt`, whose immediate would consume the last byte, fails
with `push: Instruction set out of bounds`. -/
theorem claim8_fetchMany :
    (∀ (s : MachineState) (n : Nat),
      (s.code.length - s.pc > n →
        (fetchMany s n).1 = .ok ((s.code.drop s.pc).take n) ∧
        ((s.code.drop s.pc).take n).length = n ∧
        (∀ i, i < n → ((s.code.drop s.pc).take n).getD i 0 = s.code.getD (s.pc + i) 0) ∧
        (fetchMany s n).2 = { s with pc := s.pc + n }) ∧
      (¬ s.code.length - s.pc > n →
        (fetchMany s n).1 = .error msgInstrOOB ∧ (fetchMany s n).2 = s)) ∧
    (∃ t, vmExec (mkContext [4, 2, 128, 64] 100) trivialPrims 1000000 20 = .done false t ∧
      t.evalStack.headD [] = strBytes msgPushOOBFull) := by
  constructor
  · intro s n
    constructor
    · intro h
      unfold fetchMany
      rw [if_pos h]
      refine ⟨rfl, ?_, ?_, rfl⟩
      · rw [List.length_take, List.length_drop]
        omega
      · intro i hi
        simp [List.getD_eq_getElem?_getD, List.getElem?_take, List.getElem?_drop, hi]
    · intro h
      unfold fetchMany
      rw [if_neg h]
      exact ⟨rfl, rfl⟩
  · exact ⟨_, rfl, rfl⟩

/-- States for the C8 witness: the `Push, 2, 128, Halt` bytecode before and
after the length byte has been fetched. -/
def w8bad : MachineState :=
  { code := [4, 2, 128, 64], pc := 2, fee := 99, evalStack := [], memoryUsage := 0,
    memoryMax := 1000000, callStack := [], pushErr := false }

/-- A position in the same bytecode from which two bytes can be fetched. -/
def w8good : MachineState :=
  { code := [4, 2, 128, 64], pc := 1, fee := 99, evalStack := [], memoryUsage := 0,
    memoryMax := 1000000, callStack := [], pushErr := false }

theorem claim8_witness :
    (fetchMany w8bad 2).1 = .error msgInstrOOB ∧ (fetchMany w8good 2).1 = .ok [2, 128] := by
  constructor
  · exact ((claim8_fetchMany.1 w8bad 2).2 (by decide)).1
  · have h := ((claim8_fetchMany.1 w8good 2).1 (by decide)).1
    rw [h]
    rfl

theorem pushIgn_success (s : MachineState) (b : Bytes)
    (h : s.memoryUsage + b.length ≤ s.memoryMax) :
    pushIgn s b =
      { s with evalStack := b :: s.evalStack, memoryUsage := s.memoryUsage + b.length } := by
  unfold pushIgn doPush stackPush
  have hc : ¬ s.memoryUsage + b.length > s.memoryMax := by omega
  simp [hc]

theorem pushIgn_callStack (s : MachineState) (b : Bytes) :
    (pushIgn s b).callStack = s.callStack := by
  unfold pushIgn doPush stackPush
  by_cases hC : s.memoryUsage + b.length > s.memoryMax <;> simp [hC]

/-- Claim C3: for an execution of `Ret` with a non-empty call stack: when
the evaluation-stack length minus the top frame's offset differs from the
frame's declared return count (as Go ints), the VM traps, leaving the call
stack intact and (when the memory bound admits the push) the diagnostic
`ret: Number of returned elements does not match.` on top; otherwise exactly
one frame is popped and `pc` becomes that frame's return address. -/
theorem claim3_ret (op : OpCode) (s : MachineState) (f : Frame) (rest : List Frame)
    (hcs : s.callStack = f :: rest) :
    (((s.evalStack.length : Int) - (f.evalStackOffset : Int)) ≠ (f.nrOfReturnTypes : Int) →
      ∃ t, caseRet op s = .trap t ∧ t.callStack = s.callStack ∧
        (s.memoryUsage + (wrapMsg op.Name msgRetMismatch).length ≤ s.memoryMax →
          t.evalStack = wrapMsg op.Name msgRetMismatch :: s.evalStack)) ∧
    (((s.evalStack.length : Int) - (f.evalStackOffset : Int)) = (f.nrOfReturnTypes : Int) →
      caseRet op s = .cont { s with callStack := rest, pc := f.returnAddress }) := by
  unfold caseRet
  rw [hcs]
  try dsimp only
  split
  · rename_i hcond
    constructor
    · intro hne
      refine ⟨pushIgn s (wrapMsg op.Name msgRetMismatch), rfl, ?_, ?_⟩
      · rw [pushIgn_callStack, hcs]
      · intro hmem
        rw [pushIgn_success s _ hmem]
    · intro heq
      exact absurd heq hcond
  · rename_i hcond
    constructor
    · intro hne
      exact absurd hne (by exact fun h => hcond h)
    · intro _
      rfl

/-- Frame and state for the C3 witness: one pending frame expecting one
returned element above offset 0. -/
def w3frame : Frame :=
  { returnAddress := 7, vars := fun _ => [], evalStackOffset := 0, nrOfReturnTypes := 1 }

/-- State for the C3 witness. -/
def w3state : MachineState :=
  { code := [35], pc := 1, fee := 5, evalStack := [[0, 9]], memoryUsage := 2,
    memoryMax := 1000000, callStack := [w3frame], pushErr := false }

theorem claim3_witness :
    caseRet (OpCodes.getD 35 defaultOpCode) w3state =
      .cont { w3state with callStack := [], pc := 7 } :=
  (claim3_ret (OpCodes.getD 35 defaultOpCode) w3state w3frame [] rfl).2 (by decide)

/-- Claim C7: `Neg` on a popped single byte flips 0 and 1 and pushes the
flipped byte back; any other single-byte value traps with
`neg: unable to negate <b>`; no integer sign inversion happens. -/
theorem claim7_neg (op : OpCode) (s s1 : MachineState) (b : Byte)
    (hpop : PopBytes op s = (.ok [b], s1))
    (hmem : s1.memoryUsage + 1 ≤ s1.memoryMax) :
    (b = 0 → caseNeg op s =
      .cont { s1 with evalStack := [1] :: s1.evalStack,
                      memoryUsage := s1.memoryUsage + 1 }) ∧
    (b = 1 → caseNeg op s =
      .cont { s1 with evalStack := [0] :: s1.evalStack,
                      memoryUsage := s1.memoryUsage + 1 }) ∧
    (b ≠ 0 → b ≠ 1 →
      ∃ t, caseNeg op s = .trap t ∧
        (s1.memoryUsage + (wrapMsg op.Name (msgUnableToNegate ++ Nat.repr b)).length ≤
            s1.memoryMax →
          t.evalStack = wrapMsg op.Name (msgUnableToNegate ++ Nat.repr b) :: s1.evalStack)) := by
  unfold caseNeg
  rw [hpop]
  try dsimp only
  refine ⟨?_, ?_, ?_⟩
  · intro hb
    subst hb
    have h1 : ¬ (0 : Nat) = 1 := by decide
    rw [if_neg h1, if_pos rfl]
    unfold pushResult doPush
    have hpush : stackPush s1 [1] =
        .ok { s1 with evalStack := [1] :: s1.evalStack, memoryUsage := s1.memoryUsage + 1 } := by
      unfold stackPush
      rw [if_neg (by simpa using hmem)]
      rfl
    rw [hpush]
  · intro hb
    subst hb
    rw [if_pos rfl]
    unfold pushResult doPush
    have hpush : stackPush s1 [0] =
        .ok { s1 with evalStack := [0] :: s1.evalStack, memoryUsage := s1.memoryUsage + 1 } := by
      unfold stackPush
      rw [if_neg (by simpa using hmem)]
      rfl
    rw [hpush]
  · intro hb0 hb1
    rw [if_neg hb1, if_neg hb0]
    refine ⟨_, rfl, ?_⟩
    intro hmem2
    rw [pushIgn_success s1 _ hmem2]

/-- State for the C7 witness: `neg` about to pop the single byte 1. -/
def w7state : MachineState :=
  { code := [15], pc := 1, fee := 10, evalStack := [[1]], memoryUsage := 1,
    memoryMax := 100, callStack := [], pushErr := false }

/-- Post-pop state for the C7 witness. -/
def w7s1 : MachineState :=
  { code := [15], pc := 1, fee := 8, evalStack := [], memoryUsage := 0,
    memoryMax := 100, callStack := [], pushErr := false }

theorem claim7_witness :
    caseNeg (OpCodes.getD 15 defaultOpCode) w7state =
      .cont { w7s1 with evalStack := [[0]], memoryUsage := 1 } :=
  (claim7_neg (OpCodes.getD 15 defaultOpCode) w7state w7s1 1 rfl (by decide)).2.1 rfl

/-- The full diagnostic text of the C6 division-by-zero scenario. -/
def msgDivFull : String := "div: Division by Zero"

/-- Claim C6: when the first-popped (right) operand of `Div` or `Mod`
decodes to the signed big integer zero, the instruction traps and — when
the diagnostic fits in memory — leaves `<opname>: Division by Zero` on top
of the stack; and the bytecode `PushInt 1 0 6, PushInt 1 0 0, Div, Halt`
returns failure with the bytes of "div: Division by Zero" on top. -/
theorem claim6_div_zero (op : OpCode) (s s1 s2 : MachineState) (lv : Int)
    (hr : PopSignedBigInt op s = (.ok 0, s1))
    (hl : PopSignedBigInt op s1 = (.ok lv, s2)) :
    (caseDiv op s = .trap (pushIgn s2 (wrapMsg op.Name msgDivZero)) ∧
     caseMod op s = .trap (pushIgn s2 (wrapMsg op.Name msgDivZero)) ∧
     (s2.memoryUsage + (wrapMsg op.Name msgDivZero).length ≤ s2.memoryMax →
       (pushIgn s2 (wrapMsg op.Name msgDivZero)).evalStack =
         wrapMsg op.Name msgDivZero :: s2.evalStack)) ∧
    ∃ t, vmExec (mkContext [0, 1, 0, 6, 0, 1, 0, 0, 12, 64] 50)
        trivialPrims 1000000 20 = .done false t ∧
      t.evalStack.head? = some (strBytes msgDivFull) := by
  refine ⟨⟨?_, ?_, ?_⟩, ⟨_, rfl, ?_⟩⟩
  · unfold caseDiv
    rw [hr]
    try dsimp only
    rw [hl]
    try dsimp only
    rw [if_pos rfl]
    rfl
  · unfold caseMod
    rw [hr]
    try dsimp only
    rw [hl]
    try dsimp only
    rw [if_pos rfl]
    rfl
  · intro hmem
    rw [pushIgn_success s2 _ hmem]
  · rfl

/-- State for the C6 witness: `div` about to pop a zero divisor over the
dividend 6. -/
def w6state : MachineState :=
  { code := [12], pc := 1, fee := 10, evalStack := [[0], [0, 6]], memoryUsage := 3,
    memoryMax := 100, callStack := [], pushErr := false }

/-- State after the first metered pop of the C6 witness. -/
def w6s1 : MachineState := (PopSignedBigInt (OpCodes.getD 12 defaultOpCode) w6state).2

/-- State after the second metered pop of the C6 witness. -/
def w6s2 : MachineState := (PopSignedBigInt (OpCodes.getD 12 defaultOpCode) w6s1).2

theorem claim6_witness :
    caseDiv (OpCodes.getD 12 defaultOpCode) w6state =
      .trap (pushIgn w6s2 (wrapMsg (OpCodes.getD 12 defaultOpCode).Name msgDivZero)) :=
  (claim6_div_zero (OpCodes.getD 12 defaultOpCode) w6state w6s1 w6s2 6 rfl rfl).1.1

/-- A successful metered pop removes exactly the top element and leaves
`pc`, the call stack and the code untouched. -/
theorem PopBytes_ok_stack (op : OpCode) (s s1 : MachineState) (v : Bytes)
    (h : PopBytes op s = (.ok v, s1)) :
    s.evalStack = v :: s1.evalStack ∧ s1.pc = s.pc ∧ s1.callStack = s.callStack ∧
      s1.code = s.code := by
  cases hcs : s.evalStack with
  | nil =>
    unfold PopBytes at h
    rw [stackPop_nil s hcs] at h
    have hfst := congrArg Prod.fst h
    simp at hfst
  | cons b rest =>
    unfold PopBytes at h
    rw [stackPop_cons s b rest hcs] at h
    try dsimp only at h
    split at h
    · have hfst := congrArg Prod.fst h
      simp at hfst
    · have hfst := congrArg Prod.fst h
      have hsnd := congrArg Prod.snd h
      try dsimp only at hfst hsnd
      have hv : b = v := by
        injection hfst
      subst hv
      subst hsnd
      exact ⟨rfl, rfl, rfl, rfl⟩

/-- Characterisation of a successful `loadArgs` run: the `n` popped values
land in the locals in reverse pop order (local `k` is the stack element at
depth `n - 1 - k`), the stack loses its top `n` elements, everything else
is untouched, and locals at index `≥ n` keep their initial value. -/
theorem loadArgs_ok_spec (op : OpCode) :
    ∀ (n : Nat) (vars : Nat → Bytes) (s : MachineState) (r : Nat → Bytes)
      (s4 : MachineState), loadArgs op n vars s = (.ok r, s4) →
      s4.evalStack = s.evalStack.drop n ∧ s4.pc = s.pc ∧ s4.callStack = s.callStack ∧
      s4.code = s.code ∧
      (∀ k, k < n → r k = s.evalStack.getD (n - 1 - k) []) ∧
      (∀ k, n ≤ k → r k = vars k) := by
  intro n
  induction n with
  | zero =>
    intro vars s r s4 h
    unfold loadArgs at h
    have hfst := congrArg Prod.fst h
    have hsnd := congrArg Prod.snd h
    try dsimp only at hfst hsnd
    have hv : vars = r := by
      injection hfst
    subst hv
    subst hsnd
    exact ⟨rfl, rfl, rfl, rfl, fun k hk => absurd hk (Nat.not_lt_zero k), fun _ _ => rfl⟩
  | succ n ih =>
    intro vars s r s4 h
    unfold loadArgs at h
    rcases hp : PopBytes op s with ⟨pv, ps1⟩
    rw [hp] at h
    cases pv with
    | error e =>
      try dsimp only at h
      have hfst := congrArg Prod.fst h
      simp at hfst
    | ok v =>
      try dsimp only at h
      obtain ⟨hstk, hpc, hcsk, hcode⟩ := PopBytes_ok_stack op s ps1 v hp
      obtain ⟨ih1, ih2, ih3, ih4, ih5, ih6⟩ :=
        ih (fun k => if k = n then v else vars k) ps1 r s4 h
      refine ⟨?_, ?_, ?_, ?_, ?_, ?_⟩
      · rw [ih1, hstk, List.drop_succ_cons]
      · rw [ih2, hpc]
      · rw [ih3, hcsk]
      · rw [ih4, hcode]
      · intro k hk
        by_cases hkn : k < n
        · rw [ih5 k hkn, hstk]
          have harith : n + 1 - 1 - k = n - 1 - k + 1 := by omega
          rw [harith]
          rfl
        · have hkeq : k = n := by omega
          subst hkeq
          rw [ih6 k (le_refl k), if_pos rfl, hstk]
          have h0 : k + 1 - 1 - k = 0 := by omega
          rw [h0]
          rfl
      · intro k hk
        rw [ih6 k (by omega), if_neg (by omega)]

/-- The frame that `Call` pushes: caller pc as return address, the loaded
locals, the post-pop stack depth, and the declared return count. -/
def callFrame (s4 : MachineState) (vars : Nat → Bytes) (nret : Byte) : Frame :=
  { returnAddress := s4.pc, vars := vars, evalStackOffset := s4.evalStack.length,
    nrOfReturnTypes := nret }

/-- Claim C4: with immediates `label, nargs, nret` fetched, `Call` traps
with `ReturnAddress out of bounds` when the label is 0 or exceeds the code
length; otherwise, when the `nargs` pops succeed, it pushes a frame whose
local `k` is the pre-pop stack element at depth `nargs - 1 - k` (so the
first-pushed argument is local 0), whose offset is the post-pop stack
length and whose return count is `nret`, and jumps to the label. -/
theorem claim4_call (op : OpCode) (s s1 s2 s3 : MachineState) (raB : Bytes)
    (nargsB nretB : Byte)
    (h1 : fetchMany s 2 = (.ok raB, s1))
    (h2 : fetch s1 = (.ok nargsB, s2))
    (h3 : fetch s2 = (.ok nretB, s3)) :
    (beToNat raB = 0 ∨ beToNat raB > s3.code.length →
      caseCall op s = .trap (pushIgn s3 (wrapMsg op.Name msgRetAddrOOB))) ∧
    (¬ (beToNat raB = 0 ∨ beToNat raB > s3.code.length) →
      ∀ vars s4, loadArgs op nargsB (fun _ => []) s3 = (.ok vars, s4) →
        caseCall op s =
          .cont { s4 with callStack := callFrame s4 vars nretB :: s4.callStack,
                          pc := beToNat raB } ∧
        s4.evalStack = s3.evalStack.drop nargsB ∧
        (∀ k, k < nargsB → vars k = s3.evalStack.getD (nargsB - 1 - k) []) ∧
        (∀ k, nargsB ≤ k → vars k = [])) := by
  unfold caseCall
  rw [h1]
  try dsimp only
  rw [h2]
  try dsimp only
  rw [h3]
  try dsimp only
  constructor
  · intro hoob
    rw [if_pos hoob]
    rfl
  · intro hoob vars s4 hload
    rw [if_neg hoob, if_neg (Int.not_lt.mpr (Int.natCast_nonneg nretB)), hload]
    try dsimp only
    obtain ⟨hs1, _, _, _, hv1, hv2⟩ := loadArgs_ok_spec op nargsB (fun _ => []) s3 vars s4 hload
    exact ⟨rfl, hs1, hv1, hv2⟩

/-- Bytecode for the C4 witness: `Call 14 2 1` followed by no-ops and a
halt at the target. -/
def w4code : Bytes := [32, 0, 14, 2, 1, 28, 28, 28, 28, 28, 28, 28, 28, 28, 64]

/-- State for the C4 witness: about to execute the body of `Call` with two
arguments on the stack, `[0, 10]` pushed first. -/
def w4state : MachineState :=
  { code := w4code, pc := 1, fee := 50, evalStack := [[0, 8], [0, 10]], memoryUsage := 4,
    memoryMax := 100, callStack := [], pushErr := false }

/-- Intermediate states of the C4 witness after the three immediate
fetches and after the argument pops. -/
def w4s1 : MachineState := (fetchMany w4state 2).2

/-- State after the second immediate fetch of the C4 witness. -/
def w4s2 : MachineState := (fetch w4s1).2

/-- State after the third immediate fetch of the C4 witness. -/
def w4s3 : MachineState := (fetch w4s2).2

/-- Locals loaded by the C4 witness call: the first-pushed `[0, 10]` is
local 0, the second-pushed `[0, 8]` is local 1. -/
def w4vars : Nat → Bytes := fun k => if k = 0 then [0, 10] else if k = 1 then [0, 8] else []

/-- Post-pop state of the C4 witness. -/
def w4s4 : MachineState := (loadArgs (OpCodes.getD 32 defaultOpCode) 2 (fun _ => []) w4s3).2

theorem claim4_witness :
    caseCall (OpCodes.getD 32 defaultOpCode) w4state =
      .cont { w4s4 with callStack := callFrame w4s4 w4vars 1 :: w4s4.callStack, pc := 14 } ∧
    w4s4.evalStack = w4s3.evalStack.drop 2 ∧
    w4vars 0 = w4s3.evalStack.getD 1 [] ∧ w4vars 1 = w4s3.evalStack.getD 0 [] := by
  have h := (claim4_call (OpCodes.getD 32 defaultOpCode) w4state w4s1 w4s2 w4s3
    [0, 14] 2 1 rfl rfl rfl).2 (by decide) w4vars w4s4 rfl
  exact ⟨h.1, h.2.1, h.2.2.1 0 (by decide), h.2.2.1 1 (by decide)⟩

/-- Final state of the C5 run of `PushInt 1 0 2, PushInt 1 0 5, Exp, Halt`
with budget 50. -/
def w5final : MachineState :=
  { code := [0, 1, 0, 2, 0, 1, 0, 5, 14, 64], pc := 10, fee := 43, evalStack := [[0, 25]],
    memoryUsage := 2, memoryMax := 1000000, callStack := [], pushErr := false }

/-- Claim C5 (refuted, code bug): `Exp` checks the additional charge
`gasPrice * (exponent - 1)` against the budget but never deducts it. The
program `PushInt 1 0 2, PushInt 1 0 5, Exp, Halt` with budget 50 spends
1 + 1 per push, 2 + 2 for the two metered pops and 1 for the `exp` base
charge and ends with fee 43, while the deduction the claim describes
(base 5, exponent 2, `gasPrice = 1`) would leave 42. -/
theorem claim5_exp_gas_not_deducted :
    vmExec (mkContext [0, 1, 0, 2, 0, 1, 0, 5, 14, 64] 50) trivialPrims 1000000 20 =
      .done true w5final ∧ w5final.fee = 43 ∧
    50 - (1 + 1 + 1 + 2 + 2) - 1 * (2 - 1) = 42 ∧ (43 : Nat) ≠ 42 :=
  ⟨by rfl, rfl, rfl, by decide⟩
